import Mathlib

/-!
# ircdiscord: the IRC-side command handlers of the bridge client

A shallow embedding of `internal/client/irc.go`.

* Text is a list of characters: the `regexp` package reads a Go string rune
  by rune, and offsets are counted in characters here.
* The three constant patterns of the file are given as syntax trees and run
  by a backtracking matcher with the leftmost-first semantics of `regexp`;
  `ReplaceAllString`, `ReplaceAllStringFunc`, `FindStringSubmatch` and
  `ExpandString` are embedded on top of it.
* The session, the ilayer, `regexp.Compile` and `sendDiscordMessage` are
  collaborators: functions over an arbitrary backend state, collected in
  `Env`.  A handler maps a state to its result, the state after, and the list
  of the calls it made.
* The callback registered by `HandleJoin` is represented by the initial
  names it collects; later deliveries to it are outside this file.
-/

namespace IrcDiscord

/-- Go `string`, as the list of its characters. -/
abbrev Str := List Char

/-! ## The `regexp` package -/

/-- Syntax tree of a regular expression (the constructs of `regexp/syntax`
that the patterns of this file use). -/
inductive Regex where
  | empty
  | lit (c : Char)
  | any
  | cls (neg : Bool) (ranges : List (Char × Char))
  | bot
  | eot
  | cat (a b : Regex)
  | alt (a b : Regex)
  | star (a : Regex)
  | cap (i : Nat) (a : Regex)
  deriving Repr, DecidableEq

/-- Capture table: entry `i` is the span of group `i + 1`, when it took part
in the match. -/
abbrev Caps := List (Option (Nat × Nat))

/-- Continuation of the matcher: position, rest of the text, captures. -/
abbrev Cont := Nat → Str → Caps → Option (Nat × Caps)

/-- Membership of a character in a bracket expression. -/
def inRanges (x : Char) : List (Char × Char) → Bool
  | [] => false
  | (lo, hi) :: rs => (lo.toNat ≤ x.toNat && x.toNat ≤ hi.toNat) || inRanges x rs

/-- Greedy repetition: run `step` as often as possible, each round consuming
at least one character, and fall back to fewer rounds when the continuation
fails. -/
def starLoop (step : Cont → Cont) : Nat → Cont → Cont
  | 0, k, p, r, c => k p r c
  | n + 1, k, p, r, c =>
    match step (fun p1 r1 c1 => if p < p1 then starLoop step n k p1 r1 c1 else none) p r c with
    | some res => some res
    | none => k p r c

/-- Backtracking matcher: `run re k p r c` matches `re` at position `p`, where
`r` is the text from `p` on, and hands over to `k`.  Alternatives are tried
left to right and repetition is greedy, which is the leftmost-first rule of Go's
`regexp`. -/
def Regex.run : Regex → Cont → Cont
  | .empty, k, p, r, c => k p r c
  | .lit x, k, p, r, c =>
    match r with
    | y :: r1 => if y = x then k (p + 1) r1 c else none
    | [] => none
  | .any, k, p, r, c =>
    match r with
    | y :: r1 => if y = '\n' then none else k (p + 1) r1 c
    | [] => none
  | .cls neg rs, k, p, r, c =>
    match r with
    | y :: r1 => if inRanges y rs = neg then none else k (p + 1) r1 c
    | [] => none
  | .bot, k, p, r, c => if p = 0 then k p r c else none
  | .eot, k, p, r, c =>
    match r with
    | [] => k p r c
    | _ :: _ => none
  | .cat a b, k, p, r, c => a.run (b.run k) p r c
  | .alt a b, k, p, r, c =>
    match a.run k p r c with
    | some res => some res
    | none => b.run k p r c
  | .star a, k, p, r, c => starLoop a.run r.length k p r c
  | .cap i a, k, p, r, c => a.run (fun p1 r1 c1 => k p1 r1 (c1.set i (some (p, p1)))) p r c

/-- Number of capture groups of a pattern: one more than the highest index
of a group. -/
def Regex.numCap : Regex → Nat
  | .cat a b => max a.numCap b.numCap
  | .alt a b => max a.numCap b.numCap
  | .star a => a.numCap
  | .cap i a => max (i + 1) a.numCap
  | _ => 0

/-- A match: the span of the whole match and the capture table. -/
structure Match where
  start : Nat
  stop : Nat
  caps : Caps
  deriving Repr, DecidableEq

/-- Match anchored at position `p` (`r` is the text from `p` on). -/
def Regex.matchAt (re : Regex) (p : Nat) (r : Str) : Option Match :=
  match re.run (fun p1 _ c1 => some (p1, c1)) p r (List.replicate re.numCap none) with
  | some (q, c) => some ⟨p, q, c⟩
  | none => none

/-- Leftmost match at or after position `p`. -/
def Regex.findFrom (re : Regex) : Nat → Str → Option Match
  | p, [] => re.matchAt p []
  | p, x :: r =>
    match re.matchAt p (x :: r) with
    | some m => some m
    | none => re.findFrom (p + 1) r

/-- The leftmost match of the pattern in `src`
(`Regexp.FindStringSubmatchIndex`). -/
def Regex.find (re : Regex) (src : Str) : Option Match :=
  re.findFrom 0 src

/-- Go slice `s[i:j]`. -/
def slice (s : Str) (i j : Nat) : Str := (s.drop i).take (j - i)

/-- Text of group `n` of a match (`0` is the whole match), empty when the
group took no part. -/
def Match.group (m : Match) (src : Str) : Nat → Str
  | 0 => slice src m.start m.stop
  | n + 1 =>
    match m.caps.get? n with
    | some (some (a, b)) => slice src a b
    | _ => []

/-- The pieces `Regexp.replaceAll` cuts a text into: text copied over, and
matches handed to the replacement function. -/
inductive Seg where
  | text (s : Str)
  | hit (m : Match)
  deriving Repr, DecidableEq

/-- The loop of `Regexp.replaceAll`: `sp` is `searchPos`, `last` is
`lastMatchEnd`.  A match of the empty string right after another match is
not replaced, and the search always advances by at least one character. -/
def Regex.segments (re : Regex) (src : Str) : Nat → Nat → Nat → List Seg
  | 0, _, last => [Seg.text (src.drop last)]
  | n + 1, sp, last =>
    if src.length < sp then [Seg.text (src.drop last)]
    else
      match re.findFrom sp (src.drop sp) with
      | none => [Seg.text (src.drop last)]
      | some m =>
        Seg.text (slice src last m.start) ::
          ((if last < m.stop ∨ m.start = 0 then [Seg.hit m] else []) ++
            re.segments src n (if m.stop < sp + 1 then sp + 1 else m.stop) m.stop)

/-- All pieces of `src`, in order (the loop runs at most `len(src) + 1`
times). -/
def Regex.pieces (re : Regex) (src : Str) : List Seg :=
  re.segments src (src.length + 2) 0 0

/-- Characters of a group name in a replacement template (`extract` reads
letters, digits and underscore; the ASCII ones here). -/
def isNameChar (c : Char) : Bool := c.isAlphanum || c = '_'

/-- Decimal value of a group name, as `extract` computes it: `none` for a
name that is not a number, has a leading zero or is too long. -/
def nameNum : Str → Nat → Option Nat
  | [], num => some num
  | d :: ds, num =>
    if d.toNat < '0'.toNat ∨ '9'.toNat < d.toNat ∨ 100000000 ≤ num then none
    else nameNum ds (num * 10 + (d.toNat - '0'.toNat))

/-- The `extract` helper of `Regexp.expand`: the group reference at the head
of `t` (just after a `$`), as its number if it has one, and the rest of the
template; `none` when there is no well-formed reference. -/
def extract (t : Str) : Option (Option Nat × Str) :=
  let brace := t.head? = some '{'
  let body := if brace then t.drop 1 else t
  let name := body.takeWhile isNameChar
  let after := body.dropWhile isNameChar
  if name = [] then none
  else
    let num := if name.head? = some '0' ∧ 1 < name.length then none else nameNum name 0
    if brace then
      match after with
      | '}' :: rest => some (num, rest)
      | _ => none
    else some (num, after)

/-- Template expansion of `Regexp.expand`: `$$` is a dollar sign, `$n` and
`${n}` the text of group `n`, a name that is no number refers to a named
group (the patterns here have none), a malformed reference is kept as text.
The first argument bounds the number of steps by the template's length. -/
def expandAux (src : Str) (m : Match) : Nat → Str → Str
  | 0, t => t
  | _ + 1, [] => []
  | n + 1, c :: t =>
    if c = '$' then
      match t with
      | '$' :: t1 => '$' :: expandAux src m n t1
      | _ =>
        match extract t with
        | none => '$' :: expandAux src m n t
        | some (some i, rest) => m.group src i ++ expandAux src m n rest
        | some (none, rest) => expandAux src m n rest
    else c :: expandAux src m n t

/-- Pure `Regexp.ExpandString` with an empty destination. -/
def expandString (template src : Str) (m : Match) : Str :=
  expandAux src m (template.length + 1) template

/-- Pure `Regexp.ReplaceAllString`. -/
def Regex.replaceAllString (re : Regex) (src repl : Str) : Str :=
  ((re.pieces src).map fun
    | Seg.text s => s
    | Seg.hit m => expandString repl src m).flatten

/-- Pure `Regexp.FindStringSubmatch`: the texts of the whole match and of
each group. -/
def Regex.findStringSubmatch (re : Regex) (src : Str) : Option (List Str) :=
  match re.find src with
  | none => none
  | some m => some ((List.range (re.numCap + 1)).map (m.group src))

/-- Concatenation of a list of patterns. -/
def Regex.seq : List Regex → Regex
  | [] => .empty
  | [a] => a
  | a :: b :: rest => .cat a (Regex.seq (b :: rest))

/-- A literal text as a pattern. -/
def Regex.lits (s : Str) : Regex := Regex.seq (s.map Regex.lit)

/-- Pattern `a?`. -/
def Regex.quest (a : Regex) : Regex := .alt a .empty

/-- Pattern `a+`. -/
def Regex.plus (a : Regex) : Regex := .cat a (.star a)

/-- The constant `pingRegex`, the pattern `@[^ ]*`. -/
def pingRegex : Regex := .cat (.lit '@') (.star (.cls true [(' ', ' ')]))

/-- The constant `actionRegex`, the pattern `^\x01ACTION (.*)\x01$`. -/
def actionRegex : Regex :=
  Regex.seq [.bot, Regex.lits "\x01ACTION ".toList, .cap 0 (.star .any), .lit '\x01', .eot]

/-- The unit `(?:\\/|[^/])` of `editRegex`: an escaped slash, or a character
that is no slash. -/
def editUnit : Regex := .alt (.cat (.lit '\\') (.lit '/')) (.cls true [('/', '/')])

/-- The constant `editRegex`, the pattern
`^s/((?:\\/|[^/])*)/((?:\\/|[^/])*)(?:/(g?))?$`. -/
def editRegex : Regex :=
  Regex.seq [.bot, .lit 's', .lit '/', .cap 0 (.star editUnit), .lit '/',
    .cap 1 (.star editUnit),
    Regex.quest (.cat (.lit '/') (.cap 2 (Regex.quest (.lit 'g')))), .eot]

/-! ### A parser for a fragment of the pattern syntax

`regexp.Compile` is a parameter of the handlers below.  `compileFragment` is
the instance used to run them on concrete inputs: it reads literals,
backslash-escaped punctuation, `.`, `^`, `$`, `|`, `(…)`, `(?:…)` and the
greedy operators `*`, `+`, `?`, with the parser's stack discipline, and
reports every other construct as an error. -/

/-- An open group of the parser: its capture index (none for `(?:`), the
alternatives already closed by `|` and the items of the current
concatenation, both most recent first. -/
structure Frame where
  capIdx : Option Nat
  alts : List Regex
  items : List Regex
  deriving Repr, DecidableEq

/-- Alternation of a non-empty list of patterns. -/
def Regex.alts : List Regex → Regex
  | [] => .empty
  | [a] => a
  | a :: b :: rest => .alt a (Regex.alts (b :: rest))

/-- The pattern of a closed group. -/
def Frame.toRegex (f : Frame) : Regex :=
  let body := Regex.alts ((Regex.seq f.items.reverse :: f.alts).reverse)
  match f.capIdx with
  | some i => .cap i body
  | none => body

/-- Parser state: the innermost open group, the enclosing ones, the number of
capture groups opened so far, and whether the last item is a repetition. -/
structure PState where
  cur : Frame
  stack : List Frame
  ncap : Nat
  rep : Bool
  deriving Repr, DecidableEq

/-- Append an item to the current concatenation. -/
def PState.push (s : PState) (a : Regex) : PState :=
  { s with cur := { s.cur with items := a :: s.cur.items }, rep := false }

/-- Apply a repetition operator to the last item. -/
def PState.repeat (s : PState) (op : Regex → Regex) : Except Str PState :=
  if s.rep then .error "invalid nested repetition operator".toList
  else
    match s.cur.items with
    | [] => .error "missing argument to repetition operator".toList
    | a :: rest => .ok { s with cur := { s.cur with items := op a :: rest }, rep := true }

/-- Characters that a backslash makes literal: the ASCII characters that are
no letter and no digit. -/
def isPunct (c : Char) : Bool :=
  c.toNat < 128 && !c.isAlphanum

/-- The parser's loop over the characters of the pattern. -/
def parseLoop : PState → Str → Except Str Regex
  | s, [] =>
    match s.stack with
    | [] => .ok s.cur.toRegex
    | _ :: _ => .error "missing closing )".toList
  | _, ['\\'] => .error "trailing backslash at end of expression".toList
  | s, '\\' :: d :: t =>
    if isPunct d then parseLoop (s.push (.lit d)) t
    else .error "escape sequence outside the fragment".toList
  | s, '(' :: '?' :: ':' :: t =>
    parseLoop { s with cur := ⟨none, [], []⟩, stack := s.cur :: s.stack, rep := false } t
  | _, '(' :: '?' :: _ => .error "group flags outside the fragment".toList
  | s, '(' :: t =>
    parseLoop { cur := ⟨some s.ncap, [], []⟩, stack := s.cur :: s.stack,
                ncap := s.ncap + 1, rep := false } t
  | s, c :: t =>
    if c = ')' then
      match s.stack with
      | [] => .error "unexpected )".toList
      | f :: fs =>
        parseLoop { s with cur := { f with items := s.cur.toRegex :: f.items }, stack := fs,
                           rep := false } t
    else if c = '|' then
      parseLoop { s with cur := { s.cur with alts := Regex.seq s.cur.items.reverse :: s.cur.alts,
                                             items := [] }, rep := false } t
    else if c = '*' then
      match s.repeat Regex.star with
      | .ok s1 => parseLoop s1 t
      | .error e => .error e
    else if c = '+' then
      match s.repeat Regex.plus with
      | .ok s1 => parseLoop s1 t
      | .error e => .error e
    else if c = '?' then
      if s.rep then .error "non-greedy repetition outside the fragment".toList
      else
        match s.repeat Regex.quest with
        | .ok s1 => parseLoop s1 t
        | .error e => .error e
    else if c = '.' then parseLoop (s.push .any) t
    else if c = '^' then parseLoop (s.push .bot) t
    else if c = '$' then parseLoop (s.push .eot) t
    else if c = '[' ∨ c = '{' then .error "construct outside the fragment".toList
    else parseLoop (s.push (.lit c)) t

/-- The fragment instance of `regexp.Compile`. -/
def compileFragment (pattern : Str) : Except Str Regex :=
  parseLoop ⟨⟨none, [], []⟩, [], 0, false⟩ pattern

/-! ## Data model -/

/-- The type `discord.Snowflake`: a 64-bit identifier, `0` when unset. -/
abbrev Snowflake := Int

/-- Handle of a backend session (`*session.Session`). -/
abbrev SessionRef := Nat

/-- Cancellation handle returned by a subscription. -/
abbrev Cancel := Nat

/-- The fields of `discord.Message` the handlers read. -/
structure Message where
  id : Snowflake
  channelID : Snowflake
  authorID : Snowflake
  content : Str
  deriving Repr, DecidableEq

/-- The fields of `discord.Channel` the handlers read. -/
structure Channel where
  id : Snowflake
  topic : Str
  deriving Repr, DecidableEq

/-- Go `error` values: a package-level error made by `errors.New`, an error
built by `fmt.Errorf`, an error returned by a collaborator, and a run-time
panic. -/
inductive Err where
  | sentinel (msg : Str)
  | errorf (msg : Str)
  | ext (code : Nat)
  | panic (msg : Str)
  deriving Repr, DecidableEq

/-- The variable `ErrAlreadyInChannel`. -/
def ErrAlreadyInChannel : Err := .sentinel "already in channel".toList

/-- A result `(value, error)`. -/
inductive Res (α : Type) where
  | ok (a : α)
  | error (e : Err)
  deriving Repr, DecidableEq

/-- Calls a handler makes to its collaborators, in the order made.  The
results of `Messages`, `SendMessage` and `sendDiscordMessage` are recorded
with the call. -/
inductive Event where
  | unref
  | sessionFunc (token : Str) (debug : Bool)
  | guild (id : Snowflake)
  | guildSubscribe (id : Snowflake)
  | userFromName (scope : Snowflake) (name : Str)
  | channelFromName (scope : Snowflake) (name : Str)
  | createPrivateChannel (user : Snowflake)
  | channel (id : Snowflake)
  | channelName (scope : Snowflake) (id : Snowflake)
  | subscribeUserList (scope : Snowflake)
  | messages (channel : Snowflake) (res : Res (List Message))
  | me
  | message (channel : Snowflake) (id : Snowflake)
  | sendMessage (channel : Snowflake) (content : Str) (res : Res Message)
  | editMessage (channel : Snowflake) (id : Snowflake) (content : Str)
  | inChannel (name : Str)
  | ilayerJoin (name : Str) (topic : Str) (id : Snowflake) (names : List Str)
  | sendDiscordMessage (m : Message) (flag : Bool) (err : Option Err)
  deriving Repr, DecidableEq

/-- Calls that go to the session (or create it), as opposed to the ilayer
and to the delivery path. -/
def Event.isSession : Event → Bool
  | .inChannel _ => false
  | .ilayerJoin _ _ _ _ => false
  | .sendDiscordMessage _ _ _ => false
  | _ => true

/-- The collaborators of the client, over a backend state `σ`: the arikawa
library, the session, the ilayer, the `regexp` compiler, and
`sendDiscordMessage`. -/
structure Env (σ : Type) where
  /-- Method `Snowflake.Valid`. -/
  valid : Snowflake → Bool
  /-- Function `discord.ParseSnowflake`. -/
  parseSnowflake : Str → Res Snowflake
  /-- Function `regexp.Compile`, with the error's text. -/
  compile : Str → Except Str Regex
  /-- Field `sessionFunc` of the client. -/
  sessionFunc : σ → Str → Bool → Res SessionRef × σ
  /-- Method `Session.Unref`. -/
  unref : σ → SessionRef → σ
  /-- Method `Session.Guild`, returning the guild's ID. -/
  guild : σ → SessionRef → Snowflake → Res Snowflake × σ
  /-- Method `Gateway.GuildSubscribe`. -/
  guildSubscribe : σ → SessionRef → Snowflake → σ
  /-- Method `Session.UserFromName`. -/
  userFromName : σ → SessionRef → Snowflake → Str → Snowflake
  /-- Method `Session.ChannelFromName`. -/
  channelFromName : σ → SessionRef → Snowflake → Str → Snowflake
  /-- Method `Session.CreatePrivateChannel`. -/
  createPrivateChannel : σ → SessionRef → Snowflake → Res Channel × σ
  /-- Method `Session.Channel`. -/
  channel : σ → SessionRef → Snowflake → Res Channel × σ
  /-- Method `Session.ChannelName`. -/
  channelName : σ → SessionRef → Snowflake → Snowflake → Res Str × σ
  /-- Method `Session.SubscribeUserList`: the names its callback receives as
  initial entries, and the cancellation handle. -/
  subscribeUserList : σ → SessionRef → Snowflake → (List Str × Cancel) × σ
  /-- Method `Session.Messages`, newest first. -/
  messages : σ → SessionRef → Snowflake → Res (List Message) × σ
  /-- Method `Session.Me`, returning the user's ID. -/
  me : σ → SessionRef → Res Snowflake × σ
  /-- Method `Session.Message`. -/
  message : σ → SessionRef → Snowflake → Snowflake → Res Message × σ
  /-- Method `Session.SendMessage`. -/
  sendMessage : σ → SessionRef → Snowflake → Str → Res Message × σ
  /-- Method `Session.EditMessage`. -/
  editMessage : σ → SessionRef → Snowflake → Snowflake → Str → Option Err × σ
  /-- Method `ilayer.InChannel`. -/
  inChannel : σ → Str → Bool
  /-- Method `ilayer.Join`; the creation time is that of the channel ID. -/
  ilayerJoin : σ → Str → Str → Snowflake → List Str → Option Err × σ
  /-- Modelled from the spec: `sendDiscordMessage` is defined in another file
  of the client; the spec treats the message-delivery path as a collaborator
  that takes a message and a flag and may fail. -/
  sendDiscordMessage : σ → Message → Bool → Option Err × σ

/-- The fields of `Client` the handlers use. -/
structure Client where
  session : Option SessionRef
  guild : Snowflake
  cancels : List Cancel
  lastMessageID : Snowflake
  discordDebug : Bool
  deriving Repr, DecidableEq

/-- Modelled from the spec: `isGuild` is defined in another file of the
client; the spec says a null (zero) scope is direct-message mode and a
non-null scope is server mode. -/
def Client.isGuild (c : Client) : Bool := c.guild != 0

/-- State a handler runs in: the client and the backend. -/
structure St (σ : Type) where
  c : Client
  w : σ
  deriving Repr, DecidableEq

/-- A handler: from a state to its result, the state after, and the calls it
made. -/
def Handler (σ α : Type) : Type := St σ → Res α × St σ × List Event

/-- Return a value. -/
def Handler.pure {σ α : Type} (a : α) : Handler σ α := fun st => (.ok a, st, [])

/-- Put the calls `evs` before those of a run. -/
def withEvents {σ α : Type} (evs : List Event) (r : Res α × St σ × List Event) :
    Res α × St σ × List Event :=
  (r.1, r.2.1, evs ++ r.2.2)

/-- Sequence two handlers; an error ends the run. -/
def Handler.bind {σ α β : Type} (m : Handler σ α) (f : α → Handler σ β) : Handler σ β :=
  fun st =>
    match (m st).1 with
    | .ok a => withEvents (m st).2.2 (f a (m st).2.1)
    | .error e => (.error e, (m st).2.1, (m st).2.2)

instance {σ : Type} : Monad (Handler σ) where
  pure := Handler.pure
  bind := Handler.bind

/-- Return an error. -/
def fail {σ α : Type} (e : Err) : Handler σ α := fun st => (.error e, st, [])

/-- Read the client. -/
def client {σ : Type} : Handler σ Client := fun st => (.ok st.c, st, [])

/-- Update the client. -/
def setClient {σ : Type} (f : Client → Client) : Handler σ Unit :=
  fun st => (.ok (), { st with c := f st.c }, [])

/-- The session of the client; a call through a nil session panics. -/
def session {σ : Type} : Handler σ SessionRef := fun st =>
  match st.c.session with
  | some s => (.ok s, st, [])
  | none => (.error (.panic "nil pointer dereference".toList), st, [])

/-- A call that returns a value or an error and may change the backend. -/
def call {σ α : Type} (ev : Res α → Event) (f : σ → Res α × σ) : Handler σ α := fun st =>
  ((f st.w).1, { st with w := (f st.w).2 }, [ev (f st.w).1])

/-- A call that returns only an error, if any. -/
def callErr {σ : Type} (ev : Option Err → Event) (f : σ → Option Err × σ) : Handler σ Unit :=
  fun st =>
    ((match (f st.w).1 with
      | none => Res.ok ()
      | some e => Res.error e), { st with w := (f st.w).2 }, [ev (f st.w).1])

/-- A call that cannot fail and may change the backend. -/
def act {σ α : Type} (ev : Event) (f : σ → α × σ) : Handler σ α := fun st =>
  (.ok (f st.w).1, { st with w := (f st.w).2 }, [ev])

/-- A lookup: it cannot fail and leaves the backend as it is. -/
def look {σ α : Type} (ev : Event) (f : σ → α) : Handler σ α := fun st =>
  (.ok (f st.w), st, [ev])

/-! ## The handlers of `irc.go` -/

/-- Go `fmt.Sprintf("%d", id)`. -/
def fmtInt (id : Snowflake) : Str := (toString id).toList

/-- Go `strings.SplitN(s, sep, 2)` for a one-character separator: the text
before the first separator, and the text after it when there is one. -/
def splitN2 (sep : Char) : Str → Str × Option Str
  | [] => ([], none)
  | c :: t => if c = sep then ([], some t) else (c :: (splitN2 sep t).1, (splitN2 sep t).2)

/-- Go `strings.TrimPrefix(s, "#")`. -/
def trimHash : Str → Str
  | '#' :: t => t
  | s => s

/-- Go `strings.HasPrefix(s, "s/")`. -/
def hasEditPrefix : Str → Bool
  | 's' :: '/' :: _ => true
  | _ => false

/-- Method `Regexp.ReplaceAllStringFunc` with a replacement function that
makes calls: the pieces of `replaceAll`, the function applied to each match in
order. -/
def replacePieces {σ : Type} (src : Str) (repl : Str → Handler σ Str) : List Seg → Handler σ Str
  | [] => pure []
  | Seg.text t :: rest => do
    let r ← replacePieces src repl rest
    pure (t ++ r)
  | Seg.hit m :: rest => do
    let x ← repl (m.group src 0)
    let r ← replacePieces src repl rest
    pure (x ++ r)

/-- The function `replaceIRCMentions` passes to `ReplaceAllStringFunc`. -/
def mentionRepl {σ : Type} (env : Env σ) (mtch : Str) : Handler σ Str := do
  if mtch = ['@'] then pure mtch
  else do
    let c ← client
    let s ← session
    let id ← look (.userFromName c.guild (mtch.drop 1))
      (fun w => env.userFromName w s c.guild (mtch.drop 1))
    if !env.valid id then pure mtch
    else pure ("<@".toList ++ fmtInt id ++ ">".toList)

/-- Method `replaceIRCMentions`. -/
def replaceIRCMentions {σ : Type} (env : Env σ) (s : Str) : Handler σ Str :=
  replacePieces s (mentionRepl env) (pingRegex.pieces s)

/-- Method `HandlePassword`. -/
def HandlePassword {σ : Type} (env : Env σ) (password : Str) : Handler σ Str := do
  let c ← client
  match c.session with
  | some old => do
    act .unref (fun w => ((), env.unref w old))
    setClient (fun c => { c with session := none })
  | none => pure ()
  let args := splitN2 ':' password
  let sess ← call (fun _ => .sessionFunc args.1 c.discordDebug)
    (fun w => env.sessionFunc w args.1 c.discordDebug)
  setClient (fun c => { c with session := some sess })
  match args.2 with
  | some rest => do
    let snowflake ← (match env.parseSnowflake rest with
      | .ok v => pure v
      | .error e => fail e : Handler σ Snowflake)
    let guild ← call (fun _ => .guild snowflake) (fun w => env.guild w sess snowflake)
    act (.guildSubscribe guild) (fun w => ((), env.guildSubscribe w sess guild))
    setClient (fun c => { c with guild := guild })
  | none => pure ()
  pure password

/-- The backlog loop of `HandleJoin`, `for i := len(backlog) - 1; i >= 0; i--`:
the argument is the number of messages still to deliver, `i + 1`. -/
def HandleJoin.replay {σ : Type} (env : Env σ) (backlog : List Message) : Nat → Handler σ Unit
  | 0 => pure ()
  | i + 1 =>
    match backlog[i]? with
    | none => fail (.panic "index out of range".toList)
    | some m => do
      callErr (.sendDiscordMessage m false) (fun w => env.sendDiscordMessage w m false)
      HandleJoin.replay env backlog i

/-- The room resolution of `HandleJoin`: in direct-message scope the
private channel with the named user, under the given name; in server scope the
channel found by name, under the name the session gives it. -/
def HandleJoin.resolve {σ : Type} (env : Env σ) (name : Str) : Handler σ (Channel × Str) := do
  let c ← client
  let s ← session
  if !c.isGuild then do
    let user ← look (.userFromName c.guild name) (fun w => env.userFromName w s c.guild name)
    if !env.valid user then fail (.errorf ("no user named ".toList ++ name ++ " found".toList))
    else do
      let channel ← call (fun _ => .createPrivateChannel user)
        (fun w => env.createPrivateChannel w s user)
      pure (channel, name)
  else do
    let channelID ← look (.channelFromName c.guild name)
      (fun w => env.channelFromName w s c.guild name)
    if !env.valid channelID then
      fail (.errorf ("no channel named ".toList ++ name ++ " found".toList))
    else do
      let channel ← call (fun _ => .channel channelID) (fun w => env.channel w s channelID)
      let channelName ← call (fun _ => .channelName c.guild channel.id)
        (fun w => env.channelName w s c.guild channel.id)
      pure (channel, channelName)

/-- Method `HandleJoin`. -/
def HandleJoin {σ : Type} (env : Env σ) (name : Str) : Handler σ Unit := do
  let joined ← look (.inChannel name) (fun w => env.inChannel w name)
  if joined then fail ErrAlreadyInChannel
  else do
    let room ← HandleJoin.resolve env name
    let channel := room.1
    let channelName := room.2
    let c ← client
    let s ← session
    let sub ← act (.subscribeUserList c.guild) (fun w => env.subscribeUserList w s c.guild)
    let names := sub.1
    let cancel := sub.2
    setClient (fun c => { c with cancels := c.cancels ++ [cancel] })
    callErr (fun _ => .ilayerJoin channelName channel.topic channel.id names)
      (fun w => env.ilayerJoin w channelName channel.topic channel.id names)
    let backlog ← call (.messages channel.id) (fun w => env.messages w s channel.id)
    HandleJoin.replay env backlog backlog.length

/-- The scan of `handleRegexEdit` for the first message of the backlog whose
author is `me`: its ID, or the zero value. -/
def ownMessage (me : Snowflake) : List Message → Snowflake
  | [] => 0
  | msg :: rest => if msg.authorID = me then msg.id else ownMessage me rest

/-- Method `handleRegexEdit`. -/
def handleRegexEdit {σ : Type} (env : Env σ) (channelName : Str) (_channelID : Snowflake)
    (content : Str) : Handler σ Unit :=
  match editRegex.findStringSubmatch content with
  | none => fail (.errorf "invalid replacement".toList)
  | some submatches =>
    match env.compile content with
    | .error err => fail (.errorf ("failed to compile regex: ".toList ++ err))
    | .ok regex => do
      let c ← client
      let s ← session
      let channel ← look (.channelFromName c.guild (trimHash channelName))
        (fun w => env.channelFromName w s c.guild (trimHash channelName))
      if !env.valid channel then
        fail (.errorf ("failed to find channel #".toList ++ channelName))
      else do
        let backlog ← call (.messages channel) (fun w => env.messages w s channel)
        let me ← call (fun _ => .me) (fun w => env.me w s)
        let snowflake := ownMessage me backlog
        if !env.valid snowflake then fail (.errorf "failed to find your message".toList)
        else do
          let message ← call (fun _ => .message channel snowflake)
            (fun w => env.message w s channel snowflake)
          let beforeEdit := message.content
          let result ← (
            if submatches.getD 3 [] = ['g'] then
              let result := regex.replaceAllString beforeEdit (submatches.getD 2 [])
              if result = beforeEdit then fail (.errorf "no matches".toList)
              else pure result
            else
              match regex.find beforeEdit with
              | none => fail (.errorf "no matches".toList)
              | some m =>
                let replaced := expandString (submatches.getD 2 []) beforeEdit m
                pure (beforeEdit.take m.start ++ replaced ++ beforeEdit.drop m.stop)
            : Handler σ Str)
          callErr (fun _ => .editMessage message.channelID message.id result)
            (fun w => env.editMessage w s message.channelID message.id result)

/-- The destination resolution at the head of `HandleMessage`: the channel
found by name in server scope, the private channel with the named user in
direct-message scope. -/
def HandleMessage.resolve {σ : Type} (env : Env σ) (channel : Str) : Handler σ Snowflake := do
  let c ← client
  let s ← session
  if c.isGuild then
    look (.channelFromName c.guild channel) (fun w => env.channelFromName w s c.guild channel)
  else do
    let user ← look (.userFromName c.guild channel)
      (fun w => env.userFromName w s c.guild channel)
    if !env.valid user then fail (.errorf ("no user named ".toList ++ channel))
    else do
      let channel ← call (fun _ => .createPrivateChannel user)
        (fun w => env.createPrivateChannel w s user)
      pure channel.id

/-- Method `HandleMessage`. -/
def HandleMessage {σ : Type} (env : Env σ) (channel content : Str) : Handler σ Unit := do
  let channelID ← HandleMessage.resolve env channel
  if hasEditPrefix content then handleRegexEdit env channel channelID content
  else do
    let content := actionRegex.replaceAllString content "*$1*".toList
    let content ← replaceIRCMentions env content
    let s ← session
    let msg ← call (.sendMessage channelID content)
      (fun w => env.sendMessage w s channelID content)
    setClient (fun c => { c with lastMessageID := msg.id })

/-! ## A concrete backend for running the handlers -/

/-- A backend without state: guild `42` has one channel, `general`, with ID
`100`; the only user is `alice`, with ID `7`, whose private channel has ID
`200`; the account's own ID is `9`; every channel has the given backlog;
every call succeeds; an ID is valid when it is positive; patterns are
compiled by `compileFragment`. -/
def scriptEnv (backlog : List Message) : Env Unit where
  valid := fun id => decide (0 < id)
  parseSnowflake := fun _ => .error (.ext 0)
  compile := compileFragment
  sessionFunc := fun w _ _ => (.ok 1, w)
  unref := fun w _ => w
  guild := fun w _ id => (.ok id, w)
  guildSubscribe := fun w _ _ => w
  userFromName := fun _ _ _ name => if name = "alice".toList then 7 else 0
  channelFromName := fun _ _ scope name =>
    if scope = 42 ∧ name = "general".toList then 100 else 0
  createPrivateChannel := fun w _ _ => (.ok ⟨200, []⟩, w)
  channel := fun w _ id => (.ok ⟨id, []⟩, w)
  channelName := fun w _ _ _ => (.ok "general".toList, w)
  subscribeUserList := fun w _ _ => (([], 0), w)
  messages := fun w _ _ => (.ok backlog, w)
  me := fun w _ => (.ok 9, w)
  message := fun w _ _ id =>
    (match backlog.find? (fun m => m.id = id) with
      | some m => .ok m
      | none => .error (.ext 1), w)
  sendMessage := fun w _ ch content => (.ok ⟨500, ch, 9, content⟩, w)
  editMessage := fun w _ _ _ _ => (none, w)
  inChannel := fun _ _ => false
  ilayerJoin := fun w _ _ _ _ => (none, w)
  sendDiscordMessage := fun w _ _ => (none, w)

/-- A client in server scope (guild `42`) with a session. -/
def guildState : St Unit := ⟨⟨some 1, 42, [], 0, false⟩, ()⟩

/-- A client in direct-message scope with a session. -/
def dmState : St Unit := ⟨⟨some 1, 0, [], 0, false⟩, ()⟩

/-! ## Definitions used to state the properties -/

/-- The calls of destination resolution. -/
def Event.isResolution : Event → Bool
  | .channelFromName _ _ => true
  | .userFromName _ _ => true
  | .createPrivateChannel _ => true
  | _ => false

/-- The deliveries through `sendDiscordMessage` among the calls of a run, in
order: the message, the flag and the error returned, if any. -/
def deliveries : List Event → List (Message × Bool × Option Err)
  | [] => []
  | .sendDiscordMessage m flag err :: rest => (m, flag, err) :: deliveries rest
  | _ :: rest => deliveries rest

/-- Outcome of replaying the messages `l` in order: all delivered without
error, or delivered up to the first failure, whose error is the result. -/
def ReplayOutcome (l : List Message) (r : Res Unit) (d : List (Message × Bool × Option Err)) :
    Prop :=
  (r = .ok () ∧ d = l.map fun m => (m, false, none)) ∨
    ∃ pre m post e, l = pre ++ m :: post ∧ r = .error e ∧
      d = (pre.map fun m => (m, false, none)) ++ [(m, false, some e)]

/-- What becomes of one token `@name`: the bare `@` is kept; otherwise the
token is replaced by `<@ID>` when the name resolves to a valid ID, and kept
when it does not. -/
def rewriteToken (resolve : Str → Snowflake) (valid : Snowflake → Bool) (tok : Str) : Str :=
  if tok = ['@'] then tok
  else if valid (resolve (tok.drop 1)) then "<@".toList ++ fmtInt (resolve (tok.drop 1)) ++ ">".toList
  else tok

/-- The text with every token rewritten: a token starts at an `@` outside a
token and runs up to the next space or the end of the text; the text outside
tokens is copied.  The first argument is the token being read, if any. -/
def rewriteMentions (resolve : Str → Snowflake) (valid : Snowflake → Bool) :
    Option Str → Str → Str
  | none, [] => []
  | some tok, [] => rewriteToken resolve valid tok
  | none, c :: cs =>
    if c = '@' then rewriteMentions resolve valid (some ['@']) cs
    else c :: rewriteMentions resolve valid none cs
  | some tok, c :: cs =>
    if c = ' ' then rewriteToken resolve valid tok ++ ' ' :: rewriteMentions resolve valid none cs
    else rewriteMentions resolve valid (some (tok ++ [c])) cs

/-- A backlog, newest first: a message of another user (ID `11`), then the
account's own message (ID `10`) with the given content. -/
def ownBacklog (content : Str) : List Message :=
  [⟨11, 100, 8, "other".toList⟩, ⟨10, 100, 9, content⟩]

/-- A pattern or a replacement of an edit command: every `/` in it comes
right after a backslash that escapes it. -/
def escapedBody : Str → Bool
  | [] => true
  | '\\' :: '/' :: rest => escapedBody rest
  | c :: rest => c != '/' && escapedBody rest

/-- The form of an edit command: `s/pattern/replacement`, with nothing, `/`
or `/g` after it. -/
def WellFormedEdit (content : Str) : Prop :=
  ∃ P R T, content = 's' :: '/' :: (P ++ '/' :: (R ++ T)) ∧ escapedBody P = true ∧
    escapedBody R = true ∧ (T = [] ∨ T = ['/'] ∨ T = ['/', 'g'])

/-- The end of `editRegex`: the pattern `(?:/(g?))?$`. -/
def editTail : Regex :=
  .cat (Regex.quest (.cat (.lit '/') (.cap 2 (Regex.quest (.lit 'g'))))) .eot

/-! ## Theorems -/

section run
variable {σ α β : Type}

@[simp] theorem bind_run (m : Handler σ α) (f : α → Handler σ β) (st : St σ) :
    (m >>= f) st =
      match (m st).1 with
      | .ok a => withEvents (m st).2.2 (f a (m st).2.1)
      | .error e => (.error e, (m st).2.1, (m st).2.2) := rfl

@[simp] theorem withEvents_mk (evs : List Event) (r : Res α) (st : St σ) (ev : List Event) :
    withEvents evs (r, st, ev) = (r, st, evs ++ ev) := rfl

@[simp] theorem withEvents_fst (evs : List Event) (r : Res α × St σ × List Event) :
    (withEvents evs r).1 = r.1 := rfl

@[simp] theorem withEvents_state (evs : List Event) (r : Res α × St σ × List Event) :
    (withEvents evs r).2.1 = r.2.1 := rfl

@[simp] theorem withEvents_events (evs : List Event) (r : Res α × St σ × List Event) :
    (withEvents evs r).2.2 = evs ++ r.2.2 := rfl

@[simp] theorem withEvents_nil (r : Res α × St σ × List Event) : withEvents [] r = r := rfl

@[simp] theorem pure_run (a : α) (st : St σ) : (pure a : Handler σ α) st = (.ok a, st, []) := rfl

@[simp] theorem fail_run (e : Err) (st : St σ) : (fail e : Handler σ α) st = (.error e, st, []) :=
  rfl

@[simp] theorem client_run (st : St σ) : (client : Handler σ Client) st = (.ok st.c, st, []) := rfl

@[simp] theorem setClient_run (f : Client → Client) (st : St σ) :
    setClient f st = (.ok (), { st with c := f st.c }, []) := rfl

@[simp] theorem session_run (st : St σ) :
    (session : Handler σ SessionRef) st =
      match st.c.session with
      | some s => (.ok s, st, [])
      | none => (.error (.panic "nil pointer dereference".toList), st, []) := rfl

@[simp] theorem call_run (ev : Res α → Event) (f : σ → Res α × σ) (st : St σ) :
    call ev f st = ((f st.w).1, { st with w := (f st.w).2 }, [ev (f st.w).1]) := rfl

@[simp] theorem callErr_run (ev : Option Err → Event) (f : σ → Option Err × σ) (st : St σ) :
    callErr ev f st =
      ((match (f st.w).1 with
        | none => Res.ok ()
        | some e => Res.error e), { st with w := (f st.w).2 }, [ev (f st.w).1]) := rfl

@[simp] theorem act_run (ev : Event) (f : σ → α × σ) (st : St σ) :
    act ev f st = (.ok (f st.w).1, { st with w := (f st.w).2 }, [ev]) := rfl

@[simp] theorem look_run (ev : Event) (f : σ → α) (st : St σ) :
    look ev f st = (.ok (f st.w), st, [ev]) := rfl

@[simp] theorem ite_run (c : Prop) [Decidable c] (m n : Handler σ α) (st : St σ) :
    (if c then m else n) st = if c then m st else n st := by
  split <;> rfl

end run

theorem resolve_events {σ : Type} (env : Env σ) (channel : Str) (st : St σ) :
    ∀ e ∈ (HandleMessage.resolve env channel st).2.2, e.isResolution = true := by
  intro e
  simp only [HandleMessage.resolve, bind_run, client_run, session_run]
  cases hs : st.c.session with
  | none => simp
  | some s =>
    by_cases hg : st.c.isGuild = true
    · simp [hg]
      rintro rfl; rfl
    · by_cases hv : env.valid (env.userFromName st.w s st.c.guild channel) = true
      · cases hc : (env.createPrivateChannel st.w s (env.userFromName st.w s st.c.guild channel)).1 <;>
          simp [hg, hv, hc] <;> rintro (rfl | rfl) <;> rfl
      · simp [hg, hv]
        rintro rfl; rfl

theorem splitN2_no_sep (sep : Char) (s : Str) (h : sep ∉ s) : splitN2 sep s = (s, none) := by
  induction s with
  | nil => rfl
  | cons c t ih =>
    have hc : ¬ c = sep := fun e => h (by simp [e])
    have ht : sep ∉ t := fun e => h (by simp [e])
    simp [splitN2, hc, ih ht]

/-- C8: when the ilayer reports the room as joined, `HandleJoin` returns
`ErrAlreadyInChannel`, whatever the scope; the client and the backend are
left as they were, so the list of cancellation handles is unchanged; the only
call made is the `InChannel` query, so there is no session call and no call
of `ilayer.Join`. -/
theorem HandleJoin_already_in_channel {σ : Type} (env : Env σ) (name : Str) (st : St σ)
    (h : env.inChannel st.w name = true) :
    HandleJoin env name st = (.error ErrAlreadyInChannel, st, [.inChannel name]) ∧
      (HandleJoin env name st).2.1.c.cancels = st.c.cancels ∧
      (∀ e ∈ (HandleJoin env name st).2.2, e.isSession = false) ∧
      (∀ n t i ns, Event.ilayerJoin n t i ns ∉ (HandleJoin env name st).2.2) := by
  have key : HandleJoin env name st = (.error ErrAlreadyInChannel, st, [.inChannel name]) := by
    simp [HandleJoin, h]
  rw [key]
  refine ⟨rfl, rfl, ?_, ?_⟩
  · intro e he
    simp only [List.mem_singleton] at he
    subst he
    rfl
  · intro n t i ns hmem
    simp at hmem

/-- The room `general` is reported as joined, in server scope: the join is
refused. -/
theorem HandleJoin_already_in_channel_witness :
    HandleJoin { scriptEnv [] with inChannel := fun _ _ => true } "general".toList guildState
      = (.error ErrAlreadyInChannel, guildState, [.inChannel "general".toList]) :=
  (HandleJoin_already_in_channel _ _ _ rfl).1

/-- C7, as the code has it: for a password without `:`, a successful
`HandlePassword` leaves the scope as it was before (null when it was null)
and makes no gateway guild-subscription call. -/
theorem HandlePassword_keeps_scope {σ : Type} (env : Env σ) (password : Str) (st : St σ)
    (hsep : ':' ∉ password) (v : Str) (hok : (HandlePassword env password st).1 = .ok v) :
    (HandlePassword env password st).2.1.c.guild = st.c.guild ∧
      ∀ id, Event.guildSubscribe id ∉ (HandlePassword env password st).2.2 := by
  revert hok
  simp only [HandlePassword, bind_run, client_run, splitN2_no_sep ':' password hsep]
  cases hs : st.c.session <;>
    simp only [pure_run, act_run, setClient_run, call_run, bind_run] <;>
    split <;> simp

/-- Authenticating with `abc123` in direct-message scope leaves the scope
null. -/
theorem HandlePassword_keeps_scope_witness :
    (HandlePassword (scriptEnv []) "abc123".toList dmState).2.1.c.guild = 0 ∧
      ∀ id, Event.guildSubscribe id ∉ (HandlePassword (scriptEnv []) "abc123".toList dmState).2.2 :=
  HandlePassword_keeps_scope (scriptEnv []) "abc123".toList dmState (by decide)
    "abc123".toList (by decide)

/-- C7 fails as stated: a client whose scope is guild `42` authenticates with
`abc123`; the call succeeds and the scope is still `42`, not null. -/
theorem HandlePassword_scope_not_reset :
    ':' ∉ "abc123".toList ∧
      (HandlePassword (scriptEnv []) "abc123".toList guildState).1 = .ok "abc123".toList ∧
      guildState.c.guild = 42 ∧
      (HandlePassword (scriptEnv []) "abc123".toList guildState).2.1.c.guild = 42 ∧
      ¬ (HandlePassword (scriptEnv []) "abc123".toList guildState).2.1.c.guild = 0 := by
  decide

theorem deliveries_append (a b : List Event) :
    deliveries (a ++ b) = deliveries a ++ deliveries b := by
  induction a with
  | nil => rfl
  | cons e a ih => cases e <;> simp [deliveries, ih]

theorem replay_outcome {σ : Type} (env : Env σ) (backlog : List Message) :
    ∀ (i : Nat), i ≤ backlog.length → ∀ st : St σ,
      ReplayOutcome (backlog.take i).reverse (HandleJoin.replay env backlog i st).1
        (deliveries (HandleJoin.replay env backlog i st).2.2) ∧
      ∀ ch res, Event.messages ch res ∉ (HandleJoin.replay env backlog i st).2.2 := by
  intro i
  induction i with
  | zero =>
    intro _ st
    simp [HandleJoin.replay, ReplayOutcome, deliveries]
  | succ i ih =>
    intro hi st
    have hlt : i < backlog.length := hi
    obtain ⟨m, hm⟩ : ∃ m, backlog[i]? = some m := ⟨backlog[i], List.getElem?_eq_getElem hlt⟩
    have htake : (backlog.take (i + 1)).reverse = m :: (backlog.take i).reverse := by
      rw [List.take_succ, hm]; simp
    rw [htake]
    simp only [HandleJoin.replay, hm, bind_run, callErr_run]
    cases hsend : (env.sendDiscordMessage st.w m false).1 with
    | some e =>
      refine ⟨Or.inr ⟨[], m, (backlog.take i).reverse, e, ?_⟩, ?_⟩
      · simp [deliveries]
      · simp
    | none =>
      obtain ⟨h1, h2⟩ := ih (Nat.le_of_lt hlt)
        { st with w := (env.sendDiscordMessage st.w m false).2 }
      refine ⟨?_, ?_⟩
      · rcases h1 with ⟨hr, hd⟩ | ⟨pre, m1, post, e, hl, hr, hd⟩
        · left
          simp [deliveries, hr, hd]
        · right
          refine ⟨m :: pre, m1, post, e, ?_⟩
          simp [deliveries, hl, hr, hd]
      · simpa using h2

theorem join_resolve_events {σ : Type} (env : Env σ) (name : Str) (st : St σ) :
    (∀ ch res, Event.messages ch res ∉ (HandleJoin.resolve env name st).2.2) ∧
      deliveries (HandleJoin.resolve env name st).2.2 = [] := by
  simp only [HandleJoin.resolve, bind_run, client_run, session_run]
  cases hs : st.c.session with
  | none => simp [deliveries]
  | some s =>
    by_cases hg : st.c.isGuild = true
    · by_cases hv : env.valid (env.channelFromName st.w s st.c.guild name) = true
      · cases hc : (env.channel st.w s (env.channelFromName st.w s st.c.guild name)).1 with
        | error e => simp [hg, hv, hc, deliveries]
        | ok c =>
          cases hn : (env.channelName
            (env.channel st.w s (env.channelFromName st.w s st.c.guild name)).2 s st.c.guild c.id).1 <;>
            simp [hg, hv, hc, hn, deliveries]
      · simp [hg, hv, deliveries]
    · by_cases hv : env.valid (env.userFromName st.w s st.c.guild name) = true
      · cases hc : (env.createPrivateChannel st.w s (env.userFromName st.w s st.c.guild name)).1 <;>
          simp [hg, hv, hc, deliveries]
      · simp [hg, hv, deliveries]

theorem HandleJoin_outcome {σ : Type} (env : Env σ) (name : Str) (st : St σ) (ch : Snowflake)
    (backlog : List Message)
    (h : Event.messages ch (.ok backlog) ∈ (HandleJoin env name st).2.2) :
    ReplayOutcome backlog.reverse (HandleJoin env name st).1
      (deliveries (HandleJoin env name st).2.2) := by
  revert h
  simp only [HandleJoin, bind_run, look_run, ite_run, fail_run]
  by_cases hin : env.inChannel st.w name = true
  · simp [hin]
  simp only [hin, Bool.false_eq_true, if_false, withEvents_nil]
  obtain ⟨hno, hdel⟩ := join_resolve_events env name st
  revert hno hdel
  generalize HandleJoin.resolve env name st = r
  obtain ⟨res, st1, ev1⟩ := r
  intro hno hdel
  cases res with
  | error e => 
    simp only [List.mem_cons, withEvents_events]
    simp at hno
    simp [hno]
  | ok room =>
    simp only [] at hno hdel
    cases hs : st1.c.session with
    | none =>
      simp [hs, hno]
    | some s =>
      simp only [client_run, session_run, hs, act_run, setClient_run, callErr_run, call_run,
        withEvents_nil, withEvents_events, withEvents_fst]
      cases hj : (env.ilayerJoin (env.subscribeUserList st1.w s st1.c.guild).2 room.2 room.1.topic
          room.1.id (env.subscribeUserList st1.w s st1.c.guild).1.1).1 with
      | some e => simp [hno]
      | none =>
        simp only [withEvents_events, withEvents_fst]
        cases hmsg : (env.messages (env.ilayerJoin (env.subscribeUserList st1.w s st1.c.guild).2
            room.2 room.1.topic room.1.id (env.subscribeUserList st1.w s st1.c.guild).1.1).2 s
            room.1.id).1 with
        | error e => simp [hno]
        | ok bl =>
          simp only [withEvents_events, withEvents_fst]
          generalize hst2 : (St.mk (σ := σ) _ _) = st2
          obtain ⟨hout, hnom⟩ := replay_outcome env bl bl.length (Nat.le_refl _) st2
          rw [List.take_length] at hout
          intro hmem
          have hbl : backlog = bl := by
            simp [hno, hnom] at hmem
            exact hmem.2
          subst hbl
          simpa [deliveries_append, hdel, deliveries] using hout

/-- C6: when the session returns a backlog (newest first) during a join,
`HandleJoin` passes its messages to `sendDiscordMessage` from the last to the
first, each with the flag `false`.  If no delivery fails, all of them are
delivered, in the reverse of the returned order, and the join succeeds.  If a
delivery fails, the join returns that error, and the deliveries are those of
the messages before the failing one in replay order, then the failing one:
none of the newer messages is delivered. -/
theorem HandleJoin_replays_backlog {σ : Type} (env : Env σ) (name : Str) (st : St σ)
    (ch : Snowflake) (backlog : List Message)
    (h : Event.messages ch (.ok backlog) ∈ (HandleJoin env name st).2.2) :
    ((∀ d ∈ deliveries (HandleJoin env name st).2.2, d.2.2 = none) →
      (HandleJoin env name st).1 = .ok () ∧
      deliveries (HandleJoin env name st).2.2 = backlog.reverse.map fun m => (m, false, none)) ∧
    (∀ d ∈ deliveries (HandleJoin env name st).2.2, ∀ e, d.2.2 = some e →
      (HandleJoin env name st).1 = .error e ∧
      ∃ older m newer, backlog.reverse = older ++ m :: newer ∧
        deliveries (HandleJoin env name st).2.2 =
          (older.map fun m => (m, false, none)) ++ [(m, false, some e)]) := by
  rcases HandleJoin_outcome env name st ch backlog h with
    ⟨hr, hd⟩ | ⟨pre, m, post, e, hl, hr, hd⟩
  · refine ⟨fun _ => ⟨hr, hd⟩, ?_⟩
    intro d hmem e he
    rw [hd] at hmem
    simp only [List.mem_map] at hmem
    obtain ⟨_, _, rfl⟩ := hmem
    simp at he
  · refine ⟨?_, ?_⟩
    · intro hall
      have := hall (m, false, some e) (by rw [hd]; simp)
      simp at this
    · intro d hmem e1 he1
      rw [hd] at hmem
      simp only [List.mem_append, List.mem_map, List.mem_singleton] at hmem
      rcases hmem with ⟨_, _, rfl⟩ | rfl
      · simp at he1
      · simp only [Option.some.injEq] at he1
        subst he1
        exact ⟨hr, pre, m, post, hl, hd⟩

/-- A backlog of two messages, `11` newer than `10`, is replayed as `10`,
`11`. -/
theorem HandleJoin_replays_backlog_witness :
    Event.messages 100 (.ok [⟨11, 100, 8, "hi".toList⟩, ⟨10, 100, 9, "yo".toList⟩]) ∈
        (HandleJoin (scriptEnv [⟨11, 100, 8, "hi".toList⟩, ⟨10, 100, 9, "yo".toList⟩])
          "general".toList guildState).2.2 ∧
      (HandleJoin (scriptEnv [⟨11, 100, 8, "hi".toList⟩, ⟨10, 100, 9, "yo".toList⟩])
        "general".toList guildState).1 = .ok () ∧
      deliveries (HandleJoin (scriptEnv [⟨11, 100, 8, "hi".toList⟩, ⟨10, 100, 9, "yo".toList⟩])
        "general".toList guildState).2.2 =
        [(⟨10, 100, 9, "yo".toList⟩, false, none), (⟨11, 100, 8, "hi".toList⟩, false, none)] :=
  ⟨by decide,
    (HandleJoin_replays_backlog (scriptEnv [⟨11, 100, 8, "hi".toList⟩, ⟨10, 100, 9, "yo".toList⟩])
      "general".toList guildState 100 [⟨11, 100, 8, "hi".toList⟩, ⟨10, 100, 9, "yo".toList⟩]
      (by decide)).1 (by decide)⟩

/-! ### The pattern `@[^ ]*` -/

theorem inRanges_space (y : Char) : inRanges y [(' ', ' ')] = (y == ' ') := by
  by_cases h : y = ' '
  · subst h; rfl
  · have hne : y.toNat ≠ ' '.toNat := fun e => h (by
      rw [← Char.ofNat_toNat y, e, Char.ofNat_toNat])
    have : (y == ' ') = false := by simpa using h
    rw [this]
    simp only [inRanges, Bool.or_false, Bool.and_eq_false_imp, decide_eq_true_eq,
      decide_eq_false_iff_not, not_le]
    omega

theorem take_takeWhile_length {α : Type} (p : α → Bool) (l : List α) :
    l.take (l.takeWhile p).length = l.takeWhile p := by
  induction l with
  | nil => rfl
  | cons x l ih => by_cases h : p x <;> simp [List.takeWhile, h, ih]

theorem drop_takeWhile_length {α : Type} (p : α → Bool) (l : List α) :
    l.drop (l.takeWhile p).length = l.dropWhile p := by
  induction l with
  | nil => rfl
  | cons x l ih => by_cases h : p x <;> simp [List.takeWhile, List.dropWhile, h, ih]

theorem length_dropWhile_le {α : Type} (p : α → Bool) (l : List α) :
    (l.dropWhile p).length ≤ l.length := by
  induction l with
  | nil => simp
  | cons x l ih =>
    by_cases h : p x
    · simp only [List.dropWhile, h, List.length_cons]; omega
    · simp [List.dropWhile, h]

theorem run_cls_cons (neg : Bool) (rs : List (Char × Char)) (k : Cont) (p : Nat) (y : Char)
    (r : Str) (c : Caps) :
    (Regex.cls neg rs).run k p (y :: r) c = if inRanges y rs = neg then none else k (p + 1) r c :=
  rfl

theorem run_cls_nil (neg : Bool) (rs : List (Char × Char)) (k : Cont) (p : Nat) (c : Caps) :
    (Regex.cls neg rs).run k p [] c = none := rfl

theorem run_any_cons (k : Cont) (p : Nat) (y : Char) (r : Str) (c : Caps) :
    Regex.any.run k p (y :: r) c = if y = '\n' then none else k (p + 1) r c := rfl

theorem run_any_nil (k : Cont) (p : Nat) (c : Caps) : Regex.any.run k p [] c = none := rfl

/-- The greedy loop of `[^ ]*` at the end of a pattern takes the longest run
of characters that are no space. -/
theorem starLoop_notSpace (r : Str) :
    ∀ (n p : Nat) (c : Caps), r.length ≤ n →
      starLoop (Regex.cls true [(' ', ' ')]).run n (fun p1 _ c1 => some (p1, c1)) p r c
        = some (p + (r.takeWhile fun x => x != ' ').length, c) := by
  induction r with
  | nil =>
    intro n p c _
    cases n <;> simp [starLoop, run_cls_nil]
  | cons y r ih =>
    intro n p c hn
    cases n with
    | zero => simp at hn
    | succ n =>
      have hn1 : r.length ≤ n := by simpa using hn
      by_cases hy : y = ' '
      · subst hy
        simp [starLoop, run_cls_cons, inRanges_space]
      · have hb : (y == ' ') = false := by simpa using hy
        simp only [starLoop, run_cls_cons, inRanges_space, hb, Bool.false_eq_true, if_false,
          Nat.lt_succ_self, if_true, ih n (p + 1) c hn1]
        have hb2 : (y != ' ') = true := by simp [hy]
        simp only [List.takeWhile, hb2, List.length_cons, Option.some.injEq, Prod.mk.injEq,
          and_true]
        omega

theorem ping_matchAt_at (p : Nat) (rest : Str) :
    pingRegex.matchAt p ('@' :: rest)
      = some ⟨p, p + 1 + (rest.takeWhile fun x => x != ' ').length, []⟩ := by
  have h := starLoop_notSpace rest rest.length (p + 1) [] (Nat.le_refl _)
  show (match starLoop (Regex.cls true [(' ', ' ')]).run rest.length
      (fun p1 _ c1 => some (p1, c1)) (p + 1) rest [] with
    | some (q, c) => some (Match.mk p q c)
    | none => none) = _
  rw [h]

theorem ping_matchAt_other (p : Nat) (y : Char) (rest : Str) (h : y ≠ '@') :
    pingRegex.matchAt p (y :: rest) = none := by
  simp [Regex.matchAt, pingRegex, Regex.run, h]

theorem ping_matchAt_nil (p : Nat) : pingRegex.matchAt p [] = none := by
  simp [Regex.matchAt, pingRegex, Regex.run]

theorem ping_findFrom_none (s : Str) : ∀ p, '@' ∉ s → pingRegex.findFrom p s = none := by
  induction s with
  | nil => intro p _; simp [Regex.findFrom, ping_matchAt_nil]
  | cons y s ih =>
    intro p h
    have hy : y ≠ '@' := fun e => h (by simp [e])
    have hs : '@' ∉ s := fun e => h (by simp [e])
    simp [Regex.findFrom, ping_matchAt_other p y s hy, ih (p + 1) hs]

theorem ping_findFrom (pre : Str) : ∀ (p : Nat) (rest : Str), '@' ∉ pre →
    pingRegex.findFrom p (pre ++ '@' :: rest)
      = some ⟨p + pre.length, p + pre.length + 1 + (rest.takeWhile fun x => x != ' ').length,
          []⟩ := by
  induction pre with
  | nil =>
    intro p rest _
    simp [Regex.findFrom, ping_matchAt_at]
  | cons y pre ih =>
    intro p rest h
    have hy : y ≠ '@' := fun e => h (by simp [e])
    have hs : '@' ∉ pre := fun e => h (by simp [e])
    rw [List.cons_append, Regex.findFrom, ping_matchAt_other p y _ hy]
    simp only [ih (p + 1) rest hs, List.length_cons, Option.some.injEq, Match.mk.injEq, and_true]
    omega

/-- A text holds no `@`, or splits at its first `@`. -/
theorem split_at_first (s : Str) :
    '@' ∉ s ∨ ∃ pre rest, s = pre ++ '@' :: rest ∧ '@' ∉ pre := by
  induction s with
  | nil => left; simp
  | cons y s ih =>
    by_cases hy : y = '@'
    · right; exact ⟨[], s, by simp [hy], by simp⟩
    · rcases ih with h | ⟨pre, rest, hs, hp⟩
      · left
        simp only [List.mem_cons, not_or]
        exact ⟨fun e => hy e.symm, h⟩
      · right
        refine ⟨y :: pre, rest, by simp [hs], ?_⟩
        simp only [List.mem_cons, not_or]
        exact ⟨fun e => hy e.symm, hp⟩

theorem ping_segments_none (src : Str) (n p : Nat) (h : '@' ∉ src.drop p) :
    pingRegex.segments src n p p = [Seg.text (src.drop p)] := by
  cases n with
  | zero => rfl
  | succ n =>
    rw [Regex.segments]
    split
    · rfl
    · rw [ping_findFrom_none _ p h]

theorem drop_of_drop_eq (src : Str) (p : Nat) (pre post : Str) (h : src.drop p = pre ++ post) :
    src.drop (p + pre.length) = post := by
  rw [← List.drop_drop, h, List.drop_left]

theorem ping_segments_hit (src : Str) (n p : Nat) (pre rest : Str)
    (hd : src.drop p = pre ++ '@' :: rest) (hp : '@' ∉ pre) :
    pingRegex.segments src (n + 1) p p =
      Seg.text pre ::
        Seg.hit ⟨p + pre.length, p + pre.length + 1 + (rest.takeWhile fun x => x != ' ').length,
          []⟩ ::
        pingRegex.segments src n (p + pre.length + 1 + (rest.takeWhile fun x => x != ' ').length)
          (p + pre.length + 1 + (rest.takeWhile fun x => x != ' ').length) := by
  have hlen : ¬ src.length < p := by
    intro hlt
    have : src.drop p = [] := List.drop_eq_nil_of_le (Nat.le_of_lt hlt)
    rw [this] at hd
    simp at hd
  have hslice : slice src p (p + pre.length) = pre := by
    simp [slice, hd]
  rw [Regex.segments]
  simp only [hlen, if_false, hd, ping_findFrom pre p rest hp, hslice]
  have h1 : p < p + pre.length + 1 + (rest.takeWhile fun x => x != ' ').length := by omega
  have h2 : ¬ p + pre.length + 1 + (rest.takeWhile fun x => x != ' ').length < p + 1 := by omega
  simp [h1, h2]

theorem ping_hit_group (src : Str) (p : Nat) (pre rest : Str)
    (hd : src.drop p = pre ++ '@' :: rest) :
    (Match.mk (p + pre.length) (p + pre.length + 1 + (rest.takeWhile fun x => x != ' ').length)
        []).group src 0 = '@' :: rest.takeWhile fun x => x != ' ' := by
  have h := drop_of_drop_eq src p pre _ hd
  have e : p + pre.length + 1 + (rest.takeWhile fun x => x != ' ').length - (p + pre.length)
      = (rest.takeWhile fun x => x != ' ').length + 1 := by omega
  simp only [Match.group, slice, h, e, List.take_succ_cons, take_takeWhile_length]

theorem ping_hit_rest (src : Str) (p : Nat) (pre rest : Str)
    (hd : src.drop p = pre ++ '@' :: rest) :
    src.drop (p + pre.length + 1 + (rest.takeWhile fun x => x != ' ').length)
      = rest.dropWhile fun x => x != ' ' := by
  have h := drop_of_drop_eq src p pre _ hd
  have e : p + pre.length + 1 + (rest.takeWhile fun x => x != ' ').length
      = (p + pre.length) + ((rest.takeWhile fun x => x != ' ').length + 1) := by omega
  rw [e, ← List.drop_drop, h, List.drop_succ_cons, drop_takeWhile_length]

theorem rewriteMentions_token (resolve : Str → Snowflake) (valid : Snowflake → Bool) (rest : Str) :
    ∀ tok, rewriteMentions resolve valid (some tok) rest =
      rewriteToken resolve valid (tok ++ rest.takeWhile fun x => x != ' ') ++
        rewriteMentions resolve valid none (rest.dropWhile fun x => x != ' ') := by
  induction rest with
  | nil => intro tok; simp [rewriteMentions]
  | cons y rest ih =>
    intro tok
    by_cases hy : y = ' '
    · subst hy
      simp [rewriteMentions, List.takeWhile, List.dropWhile]
    · have hb : (y != ' ') = true := by simp [hy]
      simp [rewriteMentions, List.takeWhile, List.dropWhile, hy, hb, ih]

theorem rewriteMentions_plain (resolve : Str → Snowflake) (valid : Snowflake → Bool) (s : Str)
    (h : '@' ∉ s) : rewriteMentions resolve valid none s = s := by
  induction s with
  | nil => rfl
  | cons y s ih =>
    have hy : y ≠ '@' := fun e => h (by simp [e])
    have hs : '@' ∉ s := fun e => h (by simp [e])
    simp [rewriteMentions, hy, ih hs]

theorem rewriteMentions_split (resolve : Str → Snowflake) (valid : Snowflake → Bool)
    (pre rest : Str) (h : '@' ∉ pre) :
    rewriteMentions resolve valid none (pre ++ '@' :: rest) =
      pre ++ (rewriteToken resolve valid ('@' :: rest.takeWhile fun x => x != ' ') ++
        rewriteMentions resolve valid none (rest.dropWhile fun x => x != ' ')) := by
  induction pre with
  | nil => simp [rewriteMentions, rewriteMentions_token]
  | cons y pre ih =>
    have hy : y ≠ '@' := fun e => h (by simp [e])
    have hs : '@' ∉ pre := fun e => h (by simp [e])
    simp [rewriteMentions, hy, ih hs]

theorem rewriteMentions_unresolved (resolve : Str → Snowflake) (valid : Snowflake → Bool)
    (h : ∀ name, valid (resolve name) = false) (s : Str) :
    (∀ tok, rewriteMentions resolve valid (some tok) s = tok ++ s) ∧
      rewriteMentions resolve valid none s = s := by
  have htok : ∀ tok, rewriteToken resolve valid tok = tok := by
    intro tok
    simp [rewriteToken, h]
  induction s with
  | nil => simp [rewriteMentions, htok]
  | cons y s ih =>
    refine ⟨fun tok => ?_, ?_⟩
    · by_cases hy : y = ' '
      · simp [rewriteMentions, hy, htok, ih.2]
      · simp [rewriteMentions, hy, ih.1]
    · by_cases hy : y = '@'
      · simp [rewriteMentions, hy, ih.1]
      · simp [rewriteMentions, hy, ih.2]

theorem mentionRepl_run {σ : Type} (env : Env σ) (st : St σ) (sess : SessionRef)
    (hs : st.c.session = some sess) (tok : Str) :
    mentionRepl env tok st =
      (.ok (rewriteToken (fun name => env.userFromName st.w sess st.c.guild name) env.valid tok),
        st,
        if tok = ['@'] then [] else [.userFromName st.c.guild (tok.drop 1)]) := by
  by_cases ht : tok = ['@']
  · simp [mentionRepl, rewriteToken, ht]
  · simp only [mentionRepl, rewriteToken, ht, hs, if_false, bind_run, client_run, session_run,
      look_run, ite_run, pure_run, withEvents_nil]
    cases hv : env.valid (env.userFromName st.w sess st.c.guild (tok.drop 1)) <;> simp [hv]

theorem replacePieces_ping {σ : Type} (env : Env σ) (st : St σ) (sess : SessionRef)
    (hs : st.c.session = some sess) (src : Str) :
    ∀ (n p : Nat) (suffix : Str), src.drop p = suffix → suffix.length + 1 ≤ n →
      (replacePieces src (mentionRepl env) (pingRegex.segments src n p p) st).1 =
        .ok (rewriteMentions (fun name => env.userFromName st.w sess st.c.guild name) env.valid
          none suffix) ∧
      (replacePieces src (mentionRepl env) (pingRegex.segments src n p p) st).2.1 = st ∧
      ∀ e ∈ (replacePieces src (mentionRepl env) (pingRegex.segments src n p p) st).2.2,
        ∃ name, e = .userFromName st.c.guild name := by
  intro n
  induction n with
  | zero => intro p suffix _ h; simp at h
  | succ n ih =>
    intro p suffix hd hn
    rcases split_at_first suffix with h | ⟨pre, rest, hsplit, hpre⟩
    · rw [ping_segments_none src (n + 1) p (by rw [hd]; exact h), hd]
      simp [replacePieces, rewriteMentions_plain _ _ suffix h]
    · subst hsplit
      have hlen : (rest.dropWhile fun x => x != ' ').length + 1 ≤ n := by
        have := length_dropWhile_le (fun x => x != ' ') rest
        simp only [List.length_append, List.length_cons] at hn
        omega
      obtain ⟨h1, h2, h3⟩ := ih _ _ (ping_hit_rest src p pre rest hd) hlen
      rw [ping_segments_hit src n p pre rest hd hpre]
      simp only [replacePieces, bind_run, ping_hit_group src p pre rest hd,
        mentionRepl_run env st sess hs, h1, h2, pure_run, withEvents_fst, withEvents_state,
        withEvents_events, withEvents_mk, rewriteMentions_split _ _ pre rest hpre]
      refine ⟨by simp, trivial, ?_⟩
      intro e he
      simp only [List.append_nil, List.mem_append] at he
      rcases he with he | he
      · split at he
        · simp at he
        · simp only [List.mem_singleton] at he
          exact ⟨_, he⟩
      · exact h3 e he

/-- C5: `replaceIRCMentions(s)` is `s` with its mention tokens rewritten as
`rewriteMentions` says: a token is an `@` with the longest run of characters
up to the next space, the bare `@` is kept, any other token becomes `<@ID>`
exactly when its name resolves to a valid user ID in the current scope and is
kept verbatim otherwise, and the text outside tokens is copied.  The client
and the backend are left as they were, the only calls are `UserFromName`
lookups in the current scope, and when no name resolves the output is `s`. -/
theorem replaceIRCMentions_spec {σ : Type} (env : Env σ) (st : St σ) (sess : SessionRef)
    (hs : st.c.session = some sess) (s : Str) :
    (replaceIRCMentions env s st).1 =
        .ok (rewriteMentions (fun name => env.userFromName st.w sess st.c.guild name) env.valid
          none s) ∧
      (replaceIRCMentions env s st).2.1 = st ∧
      (∀ e ∈ (replaceIRCMentions env s st).2.2, ∃ name, e = .userFromName st.c.guild name) ∧
      ((∀ name, env.valid (env.userFromName st.w sess st.c.guild name) = false) →
        (replaceIRCMentions env s st).1 = .ok s) := by
  obtain ⟨h1, h2, h3⟩ := replacePieces_ping env st sess hs s (s.length + 2) 0 s rfl (by omega)
  refine ⟨h1, h2, h3, ?_⟩
  intro hno
  rw [replaceIRCMentions, Regex.pieces, h1, (rewriteMentions_unresolved _ _ hno s).2]

/-- In `hi @alice, @alice @ @bob` only the token `@alice` resolves. -/
theorem replaceIRCMentions_spec_witness :
    (replaceIRCMentions (scriptEnv []) "hi @alice, @alice @ @bob".toList guildState).1 =
      .ok "hi @alice, <@7> @ @bob".toList :=
  (replaceIRCMentions_spec (scriptEnv []) guildState 1 rfl "hi @alice, @alice @ @bob".toList).1

/-! ### The pattern `^\x01ACTION (.*)\x01$` -/

/-- The greedy loop of `.*` before a continuation that accepts exactly the
final character `x`: on a text without newline followed by `x`, the loop
takes the whole text. -/
theorem starLoop_any_end (K : Cont) (x : Char) (c : Caps) (g : Nat → Nat × Caps)
    (hK1 : ∀ q, K q [x] c = some (g q)) (hK0 : ∀ q, K q [] c = none) (hx : x ≠ '\n') (t : Str) :
    '\n' ∉ t → ∀ n p, t.length + 1 ≤ n →
      starLoop Regex.any.run n K p (t ++ [x]) c = some (g (p + t.length)) := by
  induction t with
  | nil =>
    intro _ n p hn
    cases n with
    | zero => simp at hn
    | succ m =>
      have hempty : starLoop Regex.any.run m K (p + 1) [] c = none := by
        cases m <;> simp [starLoop, run_any_nil, hK0]
      simp [starLoop, run_any_cons, hx, hempty, hK1]
  | cons y t ih =>
    intro hnl n p hn
    have hy : y ≠ '\n' := fun e => hnl (by simp [e])
    have ht : '\n' ∉ t := fun e => hnl (by simp [e])
    cases n with
    | zero => simp at hn
    | succ m =>
      have hm : t.length + 1 ≤ m := by simpa using hn
      simp only [List.cons_append, starLoop, run_any_cons, hy, if_false, Nat.lt_succ_self,
        if_true, ih ht m (p + 1) hm, List.length_cons]
      congr 2
      omega

theorem action_matchAt (t : Str) (hnl : '\n' ∉ t) :
    actionRegex.matchAt 0 ("\x01ACTION ".toList ++ t ++ ['\x01'])
      = some ⟨0, 8 + t.length + 1, [some (8, 8 + t.length)]⟩ := by
  have h := starLoop_any_end
    (fun p1 r1 c1 => (Regex.cat (.lit '\x01') .eot).run (fun p2 _ c2 => some (p2, c2)) p1 r1
      (c1.set 0 (some (8, p1))))
    '\x01' [none] (fun q => (q + 1, [some (8, q)]))
    (fun q => rfl) (fun q => rfl) (by decide) t hnl (t ++ ['\x01']).length 8 (by simp)
  show (match starLoop Regex.any.run (t ++ ['\x01']).length
      (fun p1 r1 c1 => (Regex.cat (.lit '\x01') .eot).run (fun p2 _ c2 => some (p2, c2)) p1 r1
        (c1.set 0 (some (8, p1)))) 8 (t ++ ['\x01']) [none] with
    | some (q, c) => some (Match.mk 0 q c)
    | none => none) = _
  rw [h]

theorem action_matchAt_end (p : Nat) (hp : p ≠ 0) : actionRegex.matchAt p [] = none := by
  show (match (if p = 0 then _ else none : Option (Nat × Caps)) with
    | some (q, c) => some (Match.mk p q c)
    | none => none) = none
  rw [if_neg hp]

theorem action_expand (src : Str) (m : Match) :
    expandString "*$1*".toList src m = '*' :: (m.group src 1 ++ ['*']) := rfl

/-- The pieces of a text that the pattern matches as a whole and nowhere
after. -/
theorem pieces_whole (re : Regex) (src : Str) (m : Match) (hfind : re.findFrom 0 src = some m)
    (hstart : m.start = 0) (hstop : m.stop = src.length) (hpos : 0 < src.length)
    (hend : re.findFrom src.length [] = none) :
    re.pieces src = [Seg.text [], Seg.hit m, Seg.text []] := by
  have h1 : ¬ src.length < 0 := by omega
  have h2 : ¬ src.length < src.length := by omega
  have h3 : ¬ src.length < 0 + 1 := by omega
  rw [Regex.pieces, Regex.segments, if_neg h1, List.drop_zero, hfind]
  simp only [hstart, hstop, hpos, true_or, if_true, h3, if_false]
  rw [Regex.segments, if_neg h2, List.drop_length, hend]
  simp [slice]

theorem action_replace (t : Str) (hnl : '\n' ∉ t) :
    actionRegex.replaceAllString ("\x01ACTION ".toList ++ t ++ ['\x01']) "*$1*".toList
      = '*' :: (t ++ ['*']) := by
  have hsrc : "\x01ACTION ".toList ++ t ++ ['\x01']
      = '\x01' :: ("ACTION ".toList ++ t ++ ['\x01']) := rfl
  have hlen : ("\x01ACTION ".toList ++ t ++ ['\x01']).length = 8 + t.length + 1 := by
    simp; omega
  have hfind : actionRegex.findFrom 0 ("\x01ACTION ".toList ++ t ++ ['\x01'])
      = some ⟨0, 8 + t.length + 1, [some (8, 8 + t.length)]⟩ := by
    rw [hsrc, Regex.findFrom, ← hsrc, action_matchAt t hnl]
  have hgroup : (Match.mk 0 (8 + t.length + 1) [some (8, 8 + t.length)]).group
      ("\x01ACTION ".toList ++ t ++ ['\x01']) 1 = t := by
    simp [Match.group, slice]
  have hend : actionRegex.findFrom ("\x01ACTION ".toList ++ t ++ ['\x01']).length [] = none := by
    rw [Regex.findFrom, action_matchAt_end _ (by rw [hlen]; omega)]
  have hpieces := pieces_whole actionRegex ("\x01ACTION ".toList ++ t ++ ['\x01']) _ hfind rfl
    hlen.symm (by rw [hlen]; omega) hend
  rw [Regex.replaceAllString, hpieces]
  simp only [List.map_cons, List.map_nil, List.flatten_cons, List.flatten_nil, List.nil_append,
    List.append_nil, action_expand, hgroup]

theorem action_content_plain (t : Str) (hat : '@' ∉ t) : '@' ∉ '*' :: (t ++ ['*']) := by
  simp only [List.mem_cons, List.mem_append, List.mem_singleton, not_or]
  exact ⟨by decide, hat, by decide, by simp⟩

theorem replaceIRCMentions_plain {σ : Type} (env : Env σ) (s : Str) (h : '@' ∉ s) (st : St σ) :
    replaceIRCMentions env s st = (.ok s, st, []) := by
  rw [replaceIRCMentions, Regex.pieces, ping_segments_none s _ 0 (by simpa using h)]
  simp [replacePieces]

theorem resolve_client {σ : Type} (env : Env σ) (channel : Str) (st : St σ) :
    (HandleMessage.resolve env channel st).2.1.c = st.c := by
  simp only [HandleMessage.resolve, bind_run, client_run, session_run]
  cases hs : st.c.session with
  | none => simp
  | some s =>
    by_cases hg : st.c.isGuild = true
    · simp [hg]
    · by_cases hv : env.valid (env.userFromName st.w s st.c.guild channel) = true
      · cases hc : (env.createPrivateChannel st.w s (env.userFromName st.w s st.c.guild channel)).1 <;>
          simp [hg, hv, hc]
      · simp [hg, hv]

theorem hasEditPrefix_action (t : Str) :
    hasEditPrefix ("\x01ACTION ".toList ++ t ++ ['\x01']) = false := rfl

/-- C9: for a text `t` without newline and without `@`, and a destination
that resolves to the channel `chID`, `HandleMessage` with the content
`"\x01ACTION " ++ t ++ "\x01"` makes, after the calls of the resolution, one
more call: `SendMessage` to `chID` with the content `"*" ++ t ++ "*"`.  When
that call returns a message, the handler succeeds and the message's ID is the
client's `lastMessageID`; when it returns an error, that is the result. -/
theorem HandleMessage_action {σ : Type} (env : Env σ) (channel t : Str) (st : St σ)
    (sess : SessionRef) (chID : Snowflake) (st1 : St σ) (ev1 : List Event)
    (hs : st.c.session = some sess) (hnl : '\n' ∉ t) (hat : '@' ∉ t)
    (hr : HandleMessage.resolve env channel st = (.ok chID, st1, ev1)) :
    (HandleMessage env channel ("\x01ACTION ".toList ++ t ++ "\x01".toList) st).2.2 =
        ev1 ++ [.sendMessage chID ("*".toList ++ t ++ "*".toList)
          (env.sendMessage st1.w sess chID ("*".toList ++ t ++ "*".toList)).1] ∧
      (∀ e ∈ ev1, e.isResolution = true) ∧
      (∀ msg, (env.sendMessage st1.w sess chID ("*".toList ++ t ++ "*".toList)).1 = .ok msg →
        (HandleMessage env channel ("\x01ACTION ".toList ++ t ++ "\x01".toList) st).1 = .ok () ∧
        (HandleMessage env channel ("\x01ACTION ".toList ++ t ++ "\x01".toList) st).2.1.c.lastMessageID
          = msg.id) ∧
      (∀ e, (env.sendMessage st1.w sess chID ("*".toList ++ t ++ "*".toList)).1 = .error e →
        (HandleMessage env channel ("\x01ACTION ".toList ++ t ++ "\x01".toList) st).1
          = .error e) := by
  have hc : st1.c = st.c := by
    have := resolve_client env channel st
    rw [hr] at this
    exact this
  have hs1 : st1.c.session = some sess := by rw [hc]; exact hs
  have hev : ∀ e ∈ ev1, e.isResolution = true := by
    have := resolve_events env channel st
    rw [hr] at this
    exact this
  have hsent : "*".toList ++ t ++ "*".toList = '*' :: (t ++ ['*']) := rfl
  have hcontent : "\x01ACTION ".toList ++ t ++ "\x01".toList
      = "\x01ACTION ".toList ++ t ++ ['\x01'] := rfl
  rw [hsent, hcontent]
  have hrun : HandleMessage env channel ("\x01ACTION ".toList ++ t ++ ['\x01']) st =
      withEvents ev1
        (match (env.sendMessage st1.w sess chID ('*' :: (t ++ ['*']))).1 with
          | .ok msg =>
            (.ok (), ⟨{ st1.c with lastMessageID := msg.id },
                (env.sendMessage st1.w sess chID ('*' :: (t ++ ['*']))).2⟩,
              [.sendMessage chID ('*' :: (t ++ ['*']))
                (env.sendMessage st1.w sess chID ('*' :: (t ++ ['*']))).1])
          | .error e =>
            (.error e, ⟨st1.c, (env.sendMessage st1.w sess chID ('*' :: (t ++ ['*']))).2⟩,
              [.sendMessage chID ('*' :: (t ++ ['*']))
                (env.sendMessage st1.w sess chID ('*' :: (t ++ ['*']))).1])) := by
    simp only [HandleMessage, bind_run, hr, hasEditPrefix_action, Bool.false_eq_true, if_false,
      action_replace t hnl, replaceIRCMentions_plain env _ (action_content_plain t hat),
      session_run, hs1, call_run, withEvents_nil]
    cases (env.sendMessage st1.w sess chID ('*' :: (t ++ ['*']))).1 <;> simp [hs1]
  rw [hrun]
  refine ⟨?_, hev, ?_, ?_⟩
  · cases (env.sendMessage st1.w sess chID ('*' :: (t ++ ['*']))).1 <;> simp
  · intro msg hmsg
    simp [hmsg]
  · intro e he
    simp [he]

/-- The action `waves`, sent to `alice` in direct-message scope, goes out as
`*waves*`. -/
theorem HandleMessage_action_witness :
    (HandleMessage (scriptEnv []) "alice".toList
        ("\x01ACTION ".toList ++ "waves".toList ++ "\x01".toList) dmState).2.2 =
      [.userFromName 0 "alice".toList, .createPrivateChannel 7] ++
        [.sendMessage 200 ("*".toList ++ "waves".toList ++ "*".toList)
          (.ok ⟨500, 200, 9, "*waves*".toList⟩)] :=
  (HandleMessage_action (scriptEnv []) "alice".toList "waves".toList dmState 1 200 dmState
    [.userFromName 0 "alice".toList, .createPrivateChannel 7] rfl (by decide) (by decide) rfl).1

/-! ### The pattern of `editRegex` -/

theorem escapedBody_slash (u : Str) : escapedBody ('/' :: u) = false := by
  simp [escapedBody]

theorem escapedBody_escaped (u : Str) : escapedBody ('\\' :: '/' :: u) = escapedBody u := by
  simp [escapedBody]

theorem escapedBody_other (y : Char) (u : Str) (hy : y ≠ '/')
    (h : ¬ (y = '\\' ∧ ∃ u2, u = '/' :: u2)) : escapedBody (y :: u) = escapedBody u := by
  by_cases hb : y = '\\'
  · subst hb
    cases u with
    | nil => simp [escapedBody]
    | cons z u2 =>
      have hz : z ≠ '/' := fun e => h ⟨rfl, u2, by rw [e]⟩
      simp [escapedBody, hz]
  · simp [escapedBody, hb, hy]

theorem inRanges_slash (y : Char) : inRanges y [('/', '/')] = (y == '/') := by
  by_cases h : y = '/'
  · subst h; rfl
  · have hne : y.toNat ≠ '/'.toNat := fun e => h (by
      rw [← Char.ofNat_toNat y, e, Char.ofNat_toNat])
    have : (y == '/') = false := by simpa using h
    rw [this]
    simp only [inRanges, Bool.or_false, Bool.and_eq_false_imp, decide_eq_true_eq,
      decide_eq_false_iff_not, not_le]
    omega

theorem unit_run_nil (K : Cont) (p : Nat) (c : Caps) : editUnit.run K p [] c = none := rfl

theorem unit_run_slash (K : Cont) (p : Nat) (r : Str) (c : Caps) :
    editUnit.run K p ('/' :: r) c = none := rfl

theorem unit_run_escaped (K : Cont) (p : Nat) (r : Str) (c : Caps) :
    (editUnit.run K p ('\\' :: '/' :: r) c).isSome = true ↔
      ((K (p + 1 + 1) r c).isSome = true ∨ (K (p + 1) ('/' :: r) c).isSome = true) := by
  show (match K (p + 1 + 1) r c with
    | some res => some res
    | none => K (p + 1) ('/' :: r) c).isSome = true ↔ _
  cases K (p + 1 + 1) r c <;> simp

theorem unit_run_other (K : Cont) (p : Nat) (y : Char) (r : Str) (c : Caps) (hy : y ≠ '/')
    (h : ¬ (y = '\\' ∧ ∃ r2, r = '/' :: r2)) :
    editUnit.run K p (y :: r) c = K (p + 1) r c := by
  have hcls : (Regex.cls true [('/', '/')]).run K p (y :: r) c = K (p + 1) r c := by
    rw [run_cls_cons, inRanges_slash]
    simp [hy]
  have hfirst : (Regex.cat (.lit '\\') (.lit '/')).run K p (y :: r) c = none := by
    by_cases hb : y = '\\'
    · subst hb
      cases r with
      | nil => rfl
      | cons z r2 =>
        have hz : z ≠ '/' := fun e => h ⟨rfl, r2, by rw [e]⟩
        simp [Regex.run, hz]
    · simp [Regex.run, hb]
  show (match (Regex.cat (.lit '\\') (.lit '/')).run K p (y :: r) c with
    | some res => some res
    | none => (Regex.cls true [('/', '/')]).run K p (y :: r) c) = _
  rw [hfirst, hcls]

theorem starLoop_succ_isSome (step : Cont → Cont) (n : Nat) (K : Cont) (p : Nat) (r : Str)
    (c : Caps) :
    (starLoop step (n + 1) K p r c).isSome = true ↔
      ((step (fun p1 r1 c1 => if p < p1 then starLoop step n K p1 r1 c1 else none) p r c).isSome
          = true ∨ (K p r c).isSome = true) := by
  rw [starLoop]
  cases step (fun p1 r1 c1 => if p < p1 then starLoop step n K p1 r1 c1 else none) p r c <;> simp

/-- The greedy loop over `(?:\\/|[^/])` succeeds exactly when the text
splits into a prefix made of such units and a rest the continuation
accepts. -/
theorem starLoop_unit (n : Nat) : ∀ (r : Str), r.length ≤ n → ∀ (K : Cont) (p : Nat) (c : Caps),
    ((starLoop editUnit.run n K p r c).isSome = true ↔
      ∃ u v, r = u ++ v ∧ escapedBody u = true ∧ (K (p + u.length) v c).isSome = true) := by
  induction n with
  | zero =>
    intro r hr K p c
    have : r = [] := List.length_eq_zero.mp (Nat.le_zero.mp hr)
    subst this
    simp only [starLoop]
    constructor
    · intro h; exact ⟨[], [], rfl, rfl, h⟩
    · rintro ⟨u, v, huv, _, h⟩
      have hu : u = [] := (List.append_eq_nil.mp huv.symm).1
      have hv : v = [] := (List.append_eq_nil.mp huv.symm).2
      subst hu hv
      exact h
  | succ n ih =>
    intro r hr K p c
    rw [starLoop_succ_isSome]
    cases r with
    | nil =>
      rw [unit_run_nil]
      constructor
      · rintro (h | h)
        · simp at h
        · exact ⟨[], [], rfl, rfl, h⟩
      · rintro ⟨u, v, huv, _, h⟩
        have hu : u = [] := (List.append_eq_nil.mp huv.symm).1
        have hv : v = [] := (List.append_eq_nil.mp huv.symm).2
        subst hu hv
        exact Or.inr h
    | cons y r1 =>
      have hr1 : r1.length ≤ n := by simpa using hr
      by_cases hy : y = '/'
      · subst hy
        rw [unit_run_slash]
        constructor
        · rintro (h | h)
          · simp at h
          · exact ⟨[], _, rfl, rfl, h⟩
        · rintro ⟨u, v, huv, hu, h⟩
          cases u with
          | nil => simp at huv; subst huv; exact Or.inr h
          | cons z u1 =>
            simp only [List.cons_append, List.cons.injEq] at huv
            rw [← huv.1, escapedBody_slash] at hu
            simp at hu
      · by_cases hesc : y = '\\' ∧ ∃ r2, r1 = '/' :: r2
        · obtain ⟨rfl, r2, rfl⟩ := hesc
          have hr2 : r2.length ≤ n := by simp at hr1; omega
          rw [unit_run_escaped]
          simp only [Nat.lt_add_one, Nat.lt_add_right, if_true,
            show p < p + 1 + 1 from by omega, ih r2 hr2, ih ('/' :: r2) hr1]
          constructor
          · rintro ((⟨u, v, huv, hu, h⟩ | ⟨u, v, huv, hu, h⟩) | h)
            · refine ⟨'\\' :: '/' :: u, v, by simp [huv], by rw [escapedBody_escaped]; exact hu, ?_⟩
              simpa [Nat.add_assoc, Nat.add_comm, Nat.add_left_comm] using h
            · cases u with
              | nil =>
                simp at huv; subst huv
                exact ⟨['\\'], _, rfl, by decide, by simpa using h⟩
              | cons z u1 =>
                simp only [List.cons_append, List.cons.injEq] at huv
                rw [← huv.1, escapedBody_slash] at hu
                simp at hu
            · exact ⟨[], _, rfl, rfl, h⟩
          · rintro ⟨u, v, huv, hu, h⟩
            cases u with
            | nil => simp at huv; subst huv; exact Or.inr h
            | cons z u1 =>
              simp only [List.cons_append, List.cons.injEq] at huv
              obtain ⟨rfl, huv⟩ := huv
              cases u1 with
              | nil =>
                simp at huv; subst huv
                exact Or.inl (Or.inr ⟨[], _, rfl, rfl, by simpa using h⟩)
              | cons w u2 =>
                simp only [List.cons_append, List.cons.injEq] at huv
                obtain ⟨rfl, huv⟩ := huv
                rw [escapedBody_escaped] at hu
                refine Or.inl (Or.inl ⟨u2, v, huv, hu, ?_⟩)
                simpa [Nat.add_assoc, Nat.add_comm, Nat.add_left_comm] using h
        · rw [unit_run_other _ _ _ _ _ hy hesc]
          simp only [Nat.lt_add_one, if_true, ih r1 hr1]
          constructor
          · rintro (⟨u, v, huv, hu, h⟩ | h)
            · have hne : ¬ (y = '\\' ∧ ∃ u2, u = '/' :: u2) := by
                rintro ⟨hy1, u2, hu2⟩
                rw [hu2, escapedBody_slash] at hu
                simp at hu
              refine ⟨y :: u, v, by simp [huv], by rw [escapedBody_other y u hy hne]; exact hu, ?_⟩
              simpa [Nat.add_assoc, Nat.add_comm, Nat.add_left_comm] using h
            · exact ⟨[], _, rfl, rfl, h⟩
          · rintro ⟨u, v, huv, hu, h⟩
            cases u with
            | nil => simp at huv; subst huv; exact Or.inr h
            | cons z u1 =>
              simp only [List.cons_append, List.cons.injEq] at huv
              obtain ⟨rfl, huv⟩ := huv
              have hne : ¬ (y = '\\' ∧ ∃ u2, u1 = '/' :: u2) := by
                rintro ⟨hz, u2, hu2⟩
                exact hesc ⟨hz, u2 ++ v, by rw [huv, hu2]; rfl⟩
              rw [escapedBody_other y u1 hy hne] at hu
              refine Or.inl ⟨u1, v, huv, hu, ?_⟩
              simpa [Nat.add_assoc, Nat.add_comm, Nat.add_left_comm] using h

theorem editTail_isSome (q : Nat) (v : Str) (c : Caps) :
    (editTail.run (fun p1 _ c1 => some (p1, c1)) q v c).isSome = true ↔
      (v = [] ∨ v = ['/'] ∨ v = ['/', 'g']) := by
  cases v with
  | nil => simp [editTail, Regex.quest, Regex.run]
  | cons x v1 =>
    by_cases hx : x = '/'
    · subst hx
      cases v1 with
      | nil => simp [editTail, Regex.quest, Regex.run]
      | cons y v2 =>
        by_cases hy : y = 'g'
        · subst hy
          cases v2 with
          | nil => simp [editTail, Regex.quest, Regex.run]
          | cons z v3 => simp [editTail, Regex.quest, Regex.run]
        · simp [editTail, Regex.quest, Regex.run, hy]
    · simp [editTail, Regex.quest, Regex.run, hx]

theorem editRest_isSome (q : Nat) (v : Str) (c : Caps) :
    ((Regex.cat (.lit '/') (.cat (.cap 1 (.star editUnit)) editTail)).run
        (fun p1 _ c1 => some (p1, c1)) q v c).isSome = true ↔
      ∃ R T, v = '/' :: (R ++ T) ∧ escapedBody R = true ∧ (T = [] ∨ T = ['/'] ∨ T = ['/', 'g']) := by
  cases v with
  | nil => simp [Regex.run]
  | cons x v1 =>
    by_cases hx : x = '/'
    · subst hx
      have h := starLoop_unit v1.length v1 (Nat.le_refl _)
        (fun p1 r1 c1 => editTail.run (fun p2 _ c2 => some (p2, c2)) p1 r1
          (c1.set 1 (some (q + 1, p1)))) (q + 1) c
      simp only [editTail_isSome] at h
      show (starLoop editUnit.run v1.length
        (fun p1 r1 c1 => editTail.run (fun p2 _ c2 => some (p2, c2)) p1 r1
          (c1.set 1 (some (q + 1, p1)))) (q + 1) v1 c).isSome = true ↔ _
      rw [h]
      constructor
      · rintro ⟨R, T, hv, hR, hT⟩
        exact ⟨R, T, by rw [hv], hR, hT⟩
      · rintro ⟨R, T, hv, hR, hT⟩
        simp only [List.cons.injEq, true_and] at hv
        exact ⟨R, T, hv, hR, hT⟩
    · simp [Regex.run, hx]

theorem edit_matchAt_zero (content : Str) :
    (editRegex.matchAt 0 content).isSome = true ↔ WellFormedEdit content := by
  have hrest : ∀ (r : Str),
      (editRegex.matchAt 0 ('s' :: '/' :: r)).isSome = true ↔
        ∃ P v, r = P ++ v ∧ escapedBody P = true ∧
          ∃ R T, v = '/' :: (R ++ T) ∧ escapedBody R = true ∧
            (T = [] ∨ T = ['/'] ∨ T = ['/', 'g']) := by
    intro r
    have h := starLoop_unit r.length r (Nat.le_refl _)
      (fun p1 r1 c1 => (Regex.cat (.lit '/') (.cat (.cap 1 (.star editUnit)) editTail)).run
        (fun p2 _ c2 => some (p2, c2)) p1 r1 (c1.set 0 (some (2, p1)))) 2 [none, none, none]
    simp only [editRest_isSome] at h
    rw [← h]
    show (match starLoop editUnit.run r.length
        (fun p1 r1 c1 => (Regex.cat (.lit '/') (.cat (.cap 1 (.star editUnit)) editTail)).run
          (fun p2 _ c2 => some (p2, c2)) p1 r1 (c1.set 0 (some (2, p1)))) 2 r
        [none, none, none] with
      | some (q, c) => some (Match.mk 0 q c)
      | none => none).isSome = true ↔ _
    cases starLoop editUnit.run r.length
        (fun p1 r1 c1 => (Regex.cat (.lit '/') (.cat (.cap 1 (.star editUnit)) editTail)).run
          (fun p2 _ c2 => some (p2, c2)) p1 r1 (c1.set 0 (some (2, p1)))) 2 r
        [none, none, none] <;> simp
  cases content with
  | nil =>
    constructor
    · intro h; simp [Regex.matchAt, editRegex, Regex.seq, Regex.run] at h
    · rintro ⟨P, R, T, h, _⟩; simp at h
  | cons x r =>
    by_cases hx : x = 's'
    · subst hx
      cases r with
      | nil =>
        constructor
        · intro h; simp [Regex.matchAt, editRegex, Regex.seq, Regex.run] at h
        · rintro ⟨P, R, T, h, _⟩; simp at h
      | cons y r1 =>
        by_cases hy : y = '/'
        · subst hy
          rw [hrest]
          constructor
          · rintro ⟨P, v, hr, hP, R, T, hv, hR, hT⟩
            exact ⟨P, R, T, by rw [hr, hv], hP, hR, hT⟩
          · rintro ⟨P, R, T, h, hP, hR, hT⟩
            simp only [List.cons.injEq, true_and] at h
            exact ⟨P, '/' :: (R ++ T), h, hP, R, T, rfl, hR, hT⟩
        · constructor
          · intro h; simp [Regex.matchAt, editRegex, Regex.seq, Regex.run, hy] at h
          · rintro ⟨P, R, T, h, _⟩
            simp only [List.cons.injEq, true_and] at h
            exact absurd h.1 hy
    · constructor
      · intro h; simp [Regex.matchAt, editRegex, Regex.seq, Regex.run, hx] at h
      · rintro ⟨P, R, T, h, _⟩
        simp only [List.cons.injEq] at h
        exact absurd h.1 hx

theorem edit_matchAt_later (p : Nat) (hp : p ≠ 0) (r : Str) : editRegex.matchAt p r = none := by
  show (match (if p = 0 then _ else none : Option (Nat × Caps)) with
    | some (q, c) => some (Match.mk p q c)
    | none => none) = none
  rw [if_neg hp]

theorem edit_findFrom_later (r : Str) : ∀ p, p ≠ 0 → editRegex.findFrom p r = none := by
  induction r with
  | nil => intro p hp; rw [Regex.findFrom, edit_matchAt_later p hp]
  | cons x r ih =>
    intro p hp
    rw [Regex.findFrom, edit_matchAt_later p hp]
    exact ih (p + 1) (by omega)

/-- The contents `editRegex` matches are the edit commands of the form
`s/pattern/replacement`, `s/pattern/replacement/` or `s/pattern/replacement/g`,
where a `/` inside the pattern or the replacement is escaped by a backslash. -/
theorem editRegex_matches_iff (content : Str) :
    editRegex.findStringSubmatch content = none ↔ ¬ WellFormedEdit content := by
  have hfind : editRegex.find content = editRegex.matchAt 0 content := by
    cases content with
    | nil => rfl
    | cons x r =>
      rw [Regex.find, Regex.findFrom, edit_findFrom_later r 1 (by omega)]
      cases editRegex.matchAt 0 (x :: r) <;> rfl
  rw [← edit_matchAt_zero, Regex.findStringSubmatch, hfind]
  cases editRegex.matchAt 0 content <;> simp

/-- C4, as the code has it: for content that begins with `s/` and does not
have the form `s/pattern/replacement`, `s/pattern/replacement/` or
`s/pattern/replacement/g`, `HandleMessage` first resolves the destination;
when that fails its error is returned, and when it succeeds the result is the
error "invalid replacement".  Either way the state and the calls are those of
the resolution alone, all of them `ChannelFromName`, `UserFromName` or
`CreatePrivateChannel`: no later session call is made. -/
theorem HandleMessage_malformed_edit {σ : Type} (env : Env σ) (channel content : Str)
    (st : St σ) (hp : hasEditPrefix content = true) (hm : ¬ WellFormedEdit content) :
    HandleMessage env channel content st =
      ((match (HandleMessage.resolve env channel st).1 with
        | .ok _ => .error (.errorf "invalid replacement".toList)
        | .error e => .error e),
       (HandleMessage.resolve env channel st).2.1,
       (HandleMessage.resolve env channel st).2.2) ∧
    ∀ e ∈ (HandleMessage env channel content st).2.2, e.isResolution = true := by
  have hnone : editRegex.findStringSubmatch content = none := (editRegex_matches_iff content).mpr hm
  have key : HandleMessage env channel content st =
      ((match (HandleMessage.resolve env channel st).1 with
        | .ok _ => .error (.errorf "invalid replacement".toList)
        | .error e => .error e),
       (HandleMessage.resolve env channel st).2.1,
       (HandleMessage.resolve env channel st).2.2) := by
    simp only [HandleMessage, bind_run, hp, if_true, handleRegexEdit, hnone]
    cases (HandleMessage.resolve env channel st).1 <;> simp
  refine ⟨key, ?_⟩
  rw [key]
  exact resolve_events env channel st

/-- The content `s/abc`, sent to `alice` in direct-message scope. -/
theorem HandleMessage_malformed_edit_witness :
    HandleMessage (scriptEnv []) "alice".toList "s/abc".toList dmState =
      (.error (.errorf "invalid replacement".toList), dmState,
        [.userFromName 0 "alice".toList, .createPrivateChannel 7]) ∧
    ∀ e ∈ (HandleMessage (scriptEnv []) "alice".toList "s/abc".toList dmState).2.2,
      e.isResolution = true :=
  HandleMessage_malformed_edit (scriptEnv []) "alice".toList "s/abc".toList dmState
    (by decide) ((editRegex_matches_iff _).mp (by decide))

/-- C4 fails as stated: in direct-message scope, the malformed edit `s/abc`
sent to the unknown user `bob` fails with "no user named bob", not with
"invalid replacement", after a session call (`UserFromName`); and in server
scope the same content fails with "invalid replacement" only after the
session call `ChannelFromName`. -/
theorem HandleMessage_malformed_edit_after_calls :
    hasEditPrefix "s/abc".toList = true ∧
      ¬ WellFormedEdit "s/abc".toList ∧
      HandleMessage (scriptEnv []) "bob".toList "s/abc".toList dmState =
        (.error (.errorf "no user named bob".toList), dmState, [.userFromName 0 "bob".toList]) ∧
      (Event.userFromName 0 "bob".toList).isSession = true ∧
      HandleMessage (scriptEnv []) "general".toList "s/abc".toList guildState =
        (.error (.errorf "invalid replacement".toList), guildState,
          [.channelFromName 42 "general".toList]) ∧
      (Event.channelFromName 42 "general".toList).isSession = true :=
  ⟨by decide, (editRegex_matches_iff _).mp (by decide), by decide, by decide, by decide,
    by decide⟩

/-! ### The edit path on concrete inputs -/

/-- C1 (the code at the spec's scenario): the own message is "hello world".
The command `s/world/there/` has pattern `world` and replacement `there`, yet
what `handleRegexEdit` compiles is the whole command, which matches nothing in
"hello world": the result is "no matches" and `EditMessage` is not called,
where the spec has it receive "hello there".  The same holds for `s/o/0/g`,
where the spec has "hell0 w0rld". -/
theorem handleRegexEdit_compiles_command :
    editRegex.findStringSubmatch "s/world/there/".toList =
        some ["s/world/there/".toList, "world".toList, "there".toList, []] ∧
      (scriptEnv (ownBacklog "hello world".toList)).compile "s/world/there/".toList =
        .ok (Regex.lits "s/world/there/".toList) ∧
      HandleMessage (scriptEnv (ownBacklog "hello world".toList)) "general".toList
          "s/world/there/".toList guildState =
        (.error (.errorf "no matches".toList), guildState,
          [.channelFromName 42 "general".toList, .channelFromName 42 "general".toList,
            .messages 100 (.ok (ownBacklog "hello world".toList)), .me, .message 100 10]) ∧
      HandleMessage (scriptEnv (ownBacklog "hello world".toList)) "general".toList
          "s/o/0/g".toList guildState =
        (.error (.errorf "no matches".toList), guildState,
          [.channelFromName 42 "general".toList, .channelFromName 42 "general".toList,
            .messages 100 (.ok (ownBacklog "hello world".toList)), .me, .message 100 10]) := by
  refine ⟨by decide, rfl, by decide, by decide⟩

/-- C2 (the code at a failing input): the own message is `a s/a/b` and the
command is `s/a/b`, without the flag.  Its pattern `a` first matches at
`[0, 1)`, but the code matches the whole command, at `[2, 7)`, and submits
`a b`: the text after `[0, 1)` is not kept, so the submitted content is not
`b[0:0] ++ r ++ b[1:]` for any `r`. -/
theorem handleRegexEdit_replaces_other_range :
    editRegex.findStringSubmatch "s/a/b".toList =
        some ["s/a/b".toList, "a".toList, "b".toList, []] ∧
      (Regex.lits "a".toList).find "a s/a/b".toList = some ⟨0, 1, []⟩ ∧
      HandleMessage (scriptEnv (ownBacklog "a s/a/b".toList)) "general".toList "s/a/b".toList
          guildState =
        (.ok (), guildState,
          [.channelFromName 42 "general".toList, .channelFromName 42 "general".toList,
            .messages 100 (.ok (ownBacklog "a s/a/b".toList)), .me, .message 100 10,
            .editMessage 100 10 "a b".toList]) ∧
      ¬ ∃ r : Str, "a b".toList = "a s/a/b".toList.take 0 ++ r ++ "a s/a/b".toList.drop 1 := by
  refine ⟨by decide, by decide, by decide, ?_⟩
  rintro ⟨r, hr⟩
  have h := congrArg List.length hr
  simp at h

/-- C3 (the code at a failing input): the own message is `b/` and the command
is `s/a/|b/`, without the flag.  Its pattern `a` has no match in `b/`, but the
code compiles the whole command, the alternation of `s/a/` and `b/`, which
matches: the edit is submitted with the content `|b` instead of failing with
"no matches". -/
theorem handleRegexEdit_edits_without_match :
    editRegex.findStringSubmatch "s/a/|b/".toList =
        some ["s/a/|b/".toList, "a".toList, "|b".toList, []] ∧
      (Regex.lits "a".toList).find "b/".toList = none ∧
      HandleMessage (scriptEnv (ownBacklog "b/".toList)) "general".toList "s/a/|b/".toList
          guildState =
        (.ok (), guildState,
          [.channelFromName 42 "general".toList, .channelFromName 42 "general".toList,
            .messages 100 (.ok (ownBacklog "b/".toList)), .me, .message 100 10,
            .editMessage 100 10 "|b".toList]) := by
  decide

/-- C10 (the code at a failing input): in direct-message scope the edit
`s/a/b/` is sent to `alice`.  `HandleMessage` resolves the destination to the
private channel `200`, but `handleRegexEdit` ignores that ID and looks the
name up again with `ChannelFromName`, which finds no channel of that name: the
edit fails with "failed to find channel #alice" and the backlog of channel
`200` is never read. -/
theorem handleRegexEdit_ignores_channelID :
    HandleMessage.resolve (scriptEnv (ownBacklog "a".toList)) "alice".toList dmState =
        (.ok 200, dmState, [.userFromName 0 "alice".toList, .createPrivateChannel 7]) ∧
      HandleMessage (scriptEnv (ownBacklog "a".toList)) "alice".toList "s/a/b/".toList dmState =
        (.error (.errorf "failed to find channel #alice".toList), dmState,
          [.userFromName 0 "alice".toList, .createPrivateChannel 7,
            .channelFromName 0 "alice".toList]) := by
  decide

end IrcDiscord
